import Mathlib

/-!
# Verification of the gadget interactive device-tool core

Shallow embedding of the program's core components, translated from the Go
sources, together with theorems settling the specification claims:

* string helpers mirroring the Go standard library functions the code uses
  (`strings.TrimSpace`, `strings.ReplaceAll` with a single-character pattern,
  `strings.ToLower` on ASCII, `strings.Split` on a tab);
* the fuzzy command matcher (`internal/tui/model.go`:
  `fuzzyMatchStringScore`, `fuzzyMatchScore`, `filterCommands`);
* the session controller state machine (`internal/tui/model.go`: `Model`,
  `Update`, `handleKeyPress` and the command-execution helpers they call);
* the output-capture subsystem (`internal/capture`: `Start`, `Stop`,
  `GetAllOutput`, `CaptureFunction`);
* the device-change watcher line parser (`internal/adb`,
  `StartDeviceTracking`).

Machine integers: every quantity involved (scores, indices, lengths) is
non-negative and stays far below 2^63 for the program's actual data (the
static 12-entry catalog and its short strings), so Go `int` values are
modelled as `Nat`; the places where Go computes a possibly negative value and
immediately clamps it at zero are modelled by truncated `Nat` subtraction,
which yields the same clamped result.
-/

open scoped List

/-- `unicode.IsSpace` restricted to the Latin-1 range, which is all that the
program's data can contain: ASCII whitespace plus U+0085 and U+00A0.
Used by the embedding of `strings.TrimSpace`. -/
def goIsSpace (c : Char) : Bool :=
  c = ' ' ∨ c = '\t' ∨ c = '\n' ∨ c = '\x0b' ∨ c = '\x0c' ∨ c = '\r' ∨
    c = '\x85' ∨ c = '\xa0'

/-- `strings.TrimSpace` on the rune level: drop leading and trailing
whitespace. -/
def trimSpace (l : List Char) : List Char :=
  ((l.dropWhile goIsSpace).reverse.dropWhile goIsSpace).reverse

/-- `strings.ReplaceAll(s, "\t", "  ")`: since the pattern is a single
character, this is a per-character expansion. -/
def replaceTabs : List Char → List Char
  | [] => []
  | c :: rest => (if c = '\t' then [' ', ' '] else [c]) ++ replaceTabs rest

/-- `strings.ToLower` on one character; the program only feeds it ASCII. -/
def goToLowerChar (c : Char) : Char :=
  if 'A' ≤ c ∧ c ≤ 'Z' then Char.ofNat (c.toNat + 32) else c

/-- `[]rune(strings.ToLower(s))`. -/
def lowerRunes (s : String) : List Char := s.toList.map goToLowerChar

/-- `strings.Split(l, "\t")`: split into the list of tab-separated fields
(the result always has at least one field). -/
def splitOnTab : List Char → List (List Char)
  | [] => [[]]
  | c :: rest =>
    if c = '\t' then [] :: splitOnTab rest
    else
      match splitOnTab rest with
      | [] => [[c]]
      | f :: fs => (c :: f) :: fs

namespace Tui

/-- `registry.Command` (`internal/registry/commands.go`). -/
structure Command where
  command : String
  name : String
  description : String
  category : String
deriving DecidableEq, Repr

/-- The static command catalog, `registry.GetAvailableCommands`
(`internal/registry/commands.go`). -/
def getAvailableCommands : List Command :=
  [⟨"screenshot", "Screenshot", "Take a screenshot", "Media"⟩,
   ⟨"screenshot-day-night", "Screenshot day-night",
     "Take screenshots in day and night mode", "Media"⟩,
   ⟨"screen-record", "Screen record", "Record the screen", "Media"⟩,
   ⟨"change-dpi", "Change DPI", "Change device DPI", "Device settings"⟩,
   ⟨"change-font-size", "Change font size", "Change device font size",
     "Device settings"⟩,
   ⟨"change-screen-size", "Change screen size", "Change device screen size",
     "Device settings"⟩,
   ⟨"pair-wifi", "Pair WiFi device", "Pair with a new WiFi device", "WiFi"⟩,
   ⟨"connect-wifi", "Connect WiFi device", "Connect to a WiFi device", "WiFi"⟩,
   ⟨"disconnect-wifi", "Disconnect WiFi device",
     "Disconnect from a WiFi device", "WiFi"⟩,
   ⟨"launch-emulator", "Launch emulator", "Start an Android emulator",
     "Devices/emulators"⟩,
   ⟨"configure-emulator", "Configure emulator", "Edit emulator configuration",
     "Devices/emulators"⟩,
   ⟨"refresh-devices", "Refresh devices", "Refresh the device list",
     "Devices/emulators"⟩]

/-- The catalog entry fields a query is scored against: every display name
and every description, lowercased (`fuzzyMatchScore` lowercases both before
scoring). -/
def catalogFields : List (List Char) :=
  getAvailableCommands.map (fun c => lowerRunes c.name) ++
    getAvailableCommands.map (fun c => lowerRunes c.description)

/-- Loop state of `fuzzyMatchStringScore`'s scan
(`internal/tui/model.go`, lines 231-261): the query cursor `filterIndex`,
the running `score`, the `consecutiveBonus` accumulator and the list of
matched positions. -/
structure FMSState where
  filterIndex : Nat
  score : Nat
  consecutiveBonus : Nat
  matchPositions : List Nat
deriving DecidableEq, Repr

/-- The `for i, strChar := range strRunes` loop of `fuzzyMatchStringScore`,
recursing over the remaining runes; `i` is the current index and `prev` is
`strRunes[i-1]` (`none` when `i = 0`), so the Go conditions
`strRunes[i-1] == filterRunes[filterIndex-1]` and
`strRunes[i-1] == ' ' || strRunes[i-1] == '-'` are read off `prev`. -/
def fmsLoop (filter : List Char) :
    List Char → Nat → Option Char → FMSState → FMSState
  | [], _, _, st => st
  | c :: rest, i, prev, st =>
    if filter.get? st.filterIndex = some c then
      if 0 < st.filterIndex ∧ 0 < i ∧ prev = filter.get? (st.filterIndex - 1)
      then
        fmsLoop filter rest (i + 1) (some c)
          ⟨st.filterIndex + 1,
           st.score + 10 + (st.consecutiveBonus + 5)
             + (if i = 0 ∨ prev = some ' ' ∨ prev = some '-' then 8 else 0),
           st.consecutiveBonus + 5, st.matchPositions ++ [i]⟩
      else
        fmsLoop filter rest (i + 1) (some c)
          ⟨st.filterIndex + 1,
           st.score + 10
             + (if i = 0 ∨ prev = some ' ' ∨ prev = some '-' then 8 else 0),
           0, st.matchPositions ++ [i]⟩
    else
      fmsLoop filter rest (i + 1) (some c) st

/-- `fuzzyMatchStringScore` (`internal/tui/model.go`, lines 226-298). The
final position and compactness bonuses are Go `int` computations clamped at
zero, rendered by truncated `Nat` subtraction. -/
def fuzzyMatchStringScore (str filter : List Char) : Nat :=
  if filter = [] then 0
  else
    let st := fmsLoop filter str 0 none ⟨0, 0, 0, []⟩
    if st.filterIndex = filter.length then
      let positionBonus :=
        if st.matchPositions ≠ [] ∧ str ≠ [] then
          let totalPos := st.matchPositions.foldl (· + ·) 0
          let avgPos := totalPos / st.matchPositions.length
          50 - avgPos * 50 / str.length
        else 0
      let compactnessBonus :=
        if 1 < st.matchPositions.length then
          let span := (st.matchPositions.getLast?.getD 0)
            - (st.matchPositions.head?.getD 0) + 1
          25 - span * 25 / str.length
        else 0
      st.score + positionBonus + compactnessBonus
    else 0

/-- `fuzzyMatchScore` (`internal/tui/model.go`, lines 203-223): the larger of
the name and description scores, plus a flat 50 when the name matched. -/
def fuzzyMatchScore (cmd : Command) (filter : List Char) : Nat :=
  let nameScore := fuzzyMatchStringScore (lowerRunes cmd.name) filter
  let descScore := fuzzyMatchStringScore (lowerRunes cmd.description) filter
  let maxScore := if nameScore < descScore then descScore else nameScore
  if 0 < nameScore then maxScore + 50 else maxScore

end Tui

namespace Tui

/-- The positions (indices into `str`) matched by the greedy left-to-right
subsequence scan of `fmsLoop`, computed on their own: position `i` is matched
exactly when the current rune equals the query rune at the cursor. -/
def gpAux (filter : List Char) : List Char → Nat → Nat → List Nat
  | [], _, _ => []
  | c :: rest, i, fi =>
    if filter.get? fi = some c then i :: gpAux filter rest (i + 1) (fi + 1)
    else gpAux filter rest (i + 1) fi

/-- Total word-start bonus contributed by the scan: 8 per matched character
that is the first character or follows a space or hyphen. -/
def wordAux (filter : List Char) : List Char → Nat → Option Char → Nat → Nat
  | [], _, _, _ => 0
  | c :: rest, i, prev, fi =>
    if filter.get? fi = some c then
      (if i = 0 ∨ prev = some ' ' ∨ prev = some '-' then 8 else 0)
        + wordAux filter rest (i + 1) (some c) (fi + 1)
    else wordAux filter rest (i + 1) (some c) fi

/-- Total consecutive-run bonus contributed by the scan: the accumulator
grows by 5 and is added to the score at each matched character whose
predecessor rune in the string equals the query rune before the cursor; a
matched character failing that test resets the accumulator to 0, and
non-matching characters leave it alone. -/
def chainAux (filter : List Char) :
    List Char → Nat → Option Char → Nat → Nat → Nat
  | [], _, _, _, _ => 0
  | c :: rest, i, prev, fi, cb =>
    if filter.get? fi = some c then
      if 0 < fi ∧ 0 < i ∧ prev = filter.get? (fi - 1) then
        (cb + 5) + chainAux filter rest (i + 1) (some c) (fi + 1) (cb + 5)
      else chainAux filter rest (i + 1) (some c) (fi + 1) 0
    else chainAux filter rest (i + 1) (some c) fi cb

/-- Final value of the consecutive-bonus accumulator after the scan. -/
def cbAux (filter : List Char) :
    List Char → Nat → Option Char → Nat → Nat → Nat
  | [], _, _, _, cb => cb
  | c :: rest, i, prev, fi, cb =>
    if filter.get? fi = some c then
      if 0 < fi ∧ 0 < i ∧ prev = filter.get? (fi - 1) then
        cbAux filter rest (i + 1) (some c) (fi + 1) (cb + 5)
      else cbAux filter rest (i + 1) (some c) (fi + 1) 0
    else cbAux filter rest (i + 1) (some c) fi cb

/-- The scan loop decomposes into its four independent components: the final
query cursor advances by one per greedy match, the score is the sum of the
10-point base, the consecutive-run total and the word-start total, and the
matched positions are exactly the greedy positions. -/
theorem fmsLoop_eq (filter : List Char) :
    ∀ (s : List Char) (i : Nat) (prev : Option Char) (st : FMSState),
    fmsLoop filter s i prev st =
      ⟨st.filterIndex + (gpAux filter s i st.filterIndex).length,
       st.score + 10 * (gpAux filter s i st.filterIndex).length
         + chainAux filter s i prev st.filterIndex st.consecutiveBonus
         + wordAux filter s i prev st.filterIndex,
       cbAux filter s i prev st.filterIndex st.consecutiveBonus,
       st.matchPositions ++ gpAux filter s i st.filterIndex⟩
  | [], i, prev, st => by
    simp [fmsLoop, gpAux, chainAux, wordAux, cbAux]
  | c :: rest, i, prev, st => by
    by_cases hm : filter.get? st.filterIndex = some c
    · by_cases hc :
        0 < st.filterIndex ∧ 0 < i ∧ prev = filter.get? (st.filterIndex - 1)
      · simp only [fmsLoop, gpAux, chainAux, wordAux, cbAux, if_pos hm,
          if_pos hc]
        rw [fmsLoop_eq filter rest]
        by_cases hw : i = 0 ∨ prev = some ' ' ∨ prev = some '-'
        · simp only [if_pos hw, FMSState.mk.injEq, List.length_cons,
            List.append_assoc, List.singleton_append, and_true, true_and]
          omega
        · simp only [if_neg hw, FMSState.mk.injEq, List.length_cons,
            List.append_assoc, List.singleton_append, and_true, true_and]
          omega
      · simp only [fmsLoop, gpAux, chainAux, wordAux, cbAux, if_pos hm,
          if_neg hc]
        rw [fmsLoop_eq filter rest]
        by_cases hw : i = 0 ∨ prev = some ' ' ∨ prev = some '-'
        · simp only [if_pos hw, FMSState.mk.injEq, List.length_cons,
            List.append_assoc, List.singleton_append, and_true, true_and]
          omega
        · simp only [if_neg hw, FMSState.mk.injEq, List.length_cons,
            List.append_assoc, List.singleton_append, and_true, true_and]
          omega
    · simp only [fmsLoop, gpAux, chainAux, wordAux, cbAux, if_neg hm]
      rw [fmsLoop_eq filter rest]

end Tui

namespace Tui

/-- Greedy match positions of a query against a string, from the start. -/
def greedyPositions (str q : List Char) : List Nat := gpAux q str 0 0

/-- Consecutive-run bonus as C1's sentence describes it: the accumulator
grows by 5 (and is added) for each matched character whose position is
adjacent to the previous match's position, and resets to 0 on any gap. -/
def claimConsecAux : List Nat → Nat → Nat → Nat
  | [], _, _ => 0
  | p :: rest, prevPos, cb =>
    if p = prevPos + 1 then (cb + 5) + claimConsecAux rest p (cb + 5)
    else claimConsecAux rest p 0

/-- The field score exactly as claim C1 states it (refinement reference following
the claim's words, not the code): 10 per matched character, plus the adjacency-based
consecutive-run bonus, plus 8 per word-start match, plus
`50 - (50 * averageMatchPosition / stringLength)` floored at 0, plus
`25 - (25 * matchSpan / stringLength)` floored at 0 with `matchSpan` the
index distance from the first to the last matched character. -/
def specStringScoreClaim (str q : List Char) : Nat :=
  let P := greedyPositions str q
  if q ≠ [] ∧ P.length = q.length then
    10 * P.length
      + (match P with
         | [] => 0
         | p :: rest => claimConsecAux rest p 0)
      + 8 * (P.countP (fun p =>
          decide (p = 0) || decide (str.get? (p - 1) = some ' ')
            || decide (str.get? (p - 1) = some '-')))
      + (50 - 50 * (P.foldl (· + ·) 0 / P.length) / str.length)
      + (25 - 25 * ((P.getLast?.getD 0) - (P.head?.getD 0)) / str.length)
  else 0

end Tui

namespace Tui

/-- C1 — counterexample. On the catalog field "screenshot day-night"
(the lowercased display name of the screenshot-day-night entry) and the
query "ens", which fully matches greedily at positions 3, 5, 6, the code
scores 105 while the claim's formula gives 97: the code's consecutive-run
test fires across the 3→5 gap (because the rune before position 5 equals the
previous query rune), and the code's match span is counted inclusively
(last - first + 1), unlike the claim's index distance. -/
theorem fuzzyScore_claim_counterexample :
    lowerRunes "Screenshot day-night" ∈ catalogFields ∧
    "ens".toList ≠ [] ∧
    (greedyPositions (lowerRunes "Screenshot day-night") "ens".toList).length
      = "ens".toList.length ∧
    fuzzyMatchStringScore (lowerRunes "Screenshot day-night") "ens".toList
      = 105 ∧
    specStringScoreClaim (lowerRunes "Screenshot day-night") "ens".toList
      = 97 ∧
    (105 : Nat) ≠ 97 := by
  refine ⟨by decide, by decide, by decide, by decide, by decide, by decide⟩

/-- C1 (amended) — for every catalog entry field (display name or
description, lowercased) and every non-empty query that fully matches the
field under the greedy left-to-right scan, the field's score equals 10 times
the number of matched characters, plus the consecutive-run total in which the
accumulator grows by 5 (and is added to the score) at each matched character
whose preceding string rune equals the preceding query rune — the code's
adjacency approximation, which can also fire across a gap — and resets to 0
otherwise, plus 8 for each matched character at the start of the string or
after a space or hyphen, plus an early-position bonus of
`50 - (averageMatchPosition * 50 / stringLength)` floored at 0, plus — when
at least two characters matched — a compactness bonus of
`25 - (matchSpan * 25 / stringLength)` floored at 0, where `matchSpan` is
the inclusive span `last - first + 1` of the matched positions. -/
theorem fuzzyMatchStringScore_decomposition (str q : List Char)
    (hf : str ∈ catalogFields) (hq : q ≠ [])
    (hm : (gpAux q str 0 0).length = q.length) :
    fuzzyMatchStringScore str q =
      10 * (gpAux q str 0 0).length + chainAux q str 0 none 0 0
        + wordAux q str 0 none 0
        + (50 - ((gpAux q str 0 0).foldl (· + ·) 0 / (gpAux q str 0 0).length)
            * 50 / str.length)
        + (if 1 < (gpAux q str 0 0).length then
            25 - ((gpAux q str 0 0).getLast?.getD 0
              - (gpAux q str 0 0).head?.getD 0 + 1) * 25 / str.length
          else 0) := by
  have hP : gpAux q str 0 0 ≠ [] := by
    intro h
    rw [h] at hm
    exact hq (List.length_eq_zero.mp hm.symm)
  have hstr : str ≠ [] := by
    intro h
    subst h
    exact hP rfl
  unfold fuzzyMatchStringScore
  rw [if_neg hq, fmsLoop_eq]
  simp only [List.nil_append, Nat.zero_add]
  rw [if_pos hm]
  rw [if_pos ⟨hP, hstr⟩]

/-- C1 (amended) — witness: the catalog field "screenshot" with the query
"scr" satisfies the hypotheses, and the theorem evaluates the score to 116
there. -/
theorem fuzzyMatchStringScore_decomposition_witness :
    lowerRunes "Screenshot" ∈ catalogFields ∧
    "scr".toList ≠ [] ∧
    (gpAux "scr".toList (lowerRunes "Screenshot") 0 0).length
      = "scr".toList.length ∧
    fuzzyMatchStringScore (lowerRunes "Screenshot") "scr".toList = 116 :=
  ⟨by decide, by decide, by decide,
    (fuzzyMatchStringScore_decomposition (lowerRunes "Screenshot")
      "scr".toList (by decide) (by decide) (by decide)).trans (by decide)⟩

end Tui

namespace Tui

/-- The inner loop of Go's `insertionSort_func`
(`for j := i; j > a && data.Less(j, j-1); j--: swap`): the new element `x`
bubbles leftward through the reversed already-processed prefix while it is
strictly `less` than its predecessor. -/
def insertRev (less : α → α → Bool) (x : α) : List α → List α
  | [] => [x]
  | y :: ys => if less x y then y :: insertRev less x ys else x :: y :: ys

/-- `sort.Slice` as the program can ever invoke it: the sorted slices here
hold at most the catalog's 12 entries, and for slices of length at most 12
Go's sort (pdqsort, threshold `maxInsertion = 12`) runs its plain insertion
sort `insertionSort_func`; this is that algorithm rendered functionally,
processing elements left to right and keeping the processed prefix reversed
in the accumulator. -/
def goSortSlice (less : α → α → Bool) (l : List α) : List α :=
  (l.foldl (fun acc x => insertRev less x acc) []).reverse

theorem insertRev_eq (less : α → α → Bool) (x : α) (l : List α) :
    insertRev less x l
      = l.takeWhile (fun y => less x y) ++ x :: l.dropWhile (fun y => less x y)
    := by
  induction l with
  | nil => simp [insertRev]
  | cons y ys ih =>
    by_cases h : less x y
    · simp [insertRev, h, ih, List.takeWhile_cons, List.dropWhile_cons]
    · simp [insertRev, h, List.takeWhile_cons, List.dropWhile_cons]

theorem mem_insertRev (less : α → α → Bool) (x a : α) (l : List α) :
    a ∈ insertRev less x l ↔ a = x ∨ a ∈ l := by
  rw [insertRev_eq]
  conv_rhs =>
    rw [show l = l.takeWhile (fun y => less x y)
        ++ l.dropWhile (fun y => less x y) from
      (List.takeWhile_append_dropWhile _ _).symm]
  simp only [List.mem_append, List.mem_cons]
  tauto

theorem insertRev_perm (less : α → α → Bool) (x : α) (l : List α) :
    insertRev less x l ~ x :: l := by
  rw [insertRev_eq]
  calc l.takeWhile (fun y => less x y) ++ x :: l.dropWhile (fun y => less x y)
      ~ x :: (l.takeWhile (fun y => less x y)
          ++ l.dropWhile (fun y => less x y)) := List.perm_middle
    _ = x :: l := by rw [List.takeWhile_append_dropWhile]

theorem insertRev_pairwise (k : α → Nat) (x : α) (l : List α)
    (h : l.Pairwise (fun a b => k a ≤ k b)) :
    (insertRev (fun a b => decide (k b < k a)) x l).Pairwise
      (fun a b => k a ≤ k b) := by
  induction l with
  | nil => simp [insertRev]
  | cons y ys ih =>
    rcases List.pairwise_cons.mp h with ⟨hy, hys⟩
    by_cases hxy : k y < k x
    · have hrw : insertRev (fun a b => decide (k b < k a)) x (y :: ys)
          = y :: insertRev (fun a b => decide (k b < k a)) x ys := by
        simp [insertRev, hxy]
      rw [hrw]
      refine List.pairwise_cons.mpr ⟨?_, ih hys⟩
      intro b hb
      rcases (mem_insertRev _ _ _ _).mp hb with rfl | hb'
      · omega
      · exact hy b hb'
    · have hrw : insertRev (fun a b => decide (k b < k a)) x (y :: ys)
          = x :: y :: ys := by
        simp [insertRev, hxy]
      rw [hrw]
      refine List.pairwise_cons.mpr ⟨?_, h⟩
      intro b hb
      rcases List.mem_cons.mp hb with rfl | hb'
      · omega
      · exact le_trans (by omega) (hy b hb')

theorem insertRev_reverse_filter (k : α → Nat) (s : Nat) (x : α)
    (l : List α) :
    (insertRev (fun a b => decide (k b < k a)) x l).reverse.filter
        (fun a => decide (k a = s))
      = if k x = s
        then l.reverse.filter (fun a => decide (k a = s)) ++ [x]
        else l.reverse.filter (fun a => decide (k a = s)) := by
  have hl : l.reverse.filter (fun a => decide (k a = s))
      = (l.dropWhile (fun y => decide (k y < k x))).reverse.filter
          (fun a => decide (k a = s))
        ++ (l.takeWhile (fun y => decide (k y < k x))).reverse.filter
          (fun a => decide (k a = s)) := by
    conv_lhs => rw [show l = l.takeWhile (fun y => decide (k y < k x))
        ++ l.dropWhile (fun y => decide (k y < k x)) from
      (List.takeWhile_append_dropWhile _ _).symm]
    rw [List.reverse_append, List.filter_append]
  rw [insertRev_eq, List.reverse_append, List.reverse_cons,
    List.filter_append, List.filter_append, hl]
  by_cases hks : k x = s
  · have ht : (l.takeWhile (fun y => decide (k y < k x))).reverse.filter
        (fun a => decide (k a = s)) = [] := by
      rw [List.filter_eq_nil_iff]
      intro a ha
      rw [List.mem_reverse] at ha
      have := List.mem_takeWhile_imp ha
      simp only [decide_eq_true_eq] at this ⊢
      omega
    rw [if_pos hks, ht]
    simp [hks]
  · rw [if_neg hks]
    simp [hks]

theorem foldl_insertRev_pairwise (k : α → Nat) :
    ∀ (l acc : List α), acc.Pairwise (fun a b => k a ≤ k b) →
      (l.foldl (fun acc x => insertRev (fun a b => decide (k b < k a)) x acc)
        acc).Pairwise (fun a b => k a ≤ k b)
  | [], _, h => h
  | x :: rest, acc, h =>
    foldl_insertRev_pairwise k rest _ (insertRev_pairwise k x acc h)

theorem foldl_insertRev_filter (k : α → Nat) (s : Nat) :
    ∀ (l acc : List α),
      ((l.foldl (fun acc x => insertRev (fun a b => decide (k b < k a)) x acc)
          acc).reverse.filter (fun a => decide (k a = s)))
        = acc.reverse.filter (fun a => decide (k a = s))
          ++ l.filter (fun a => decide (k a = s))
  | [], acc => by simp
  | x :: rest, acc => by
    rw [List.foldl_cons, foldl_insertRev_filter k s rest,
      insertRev_reverse_filter]
    by_cases hx : k x = s
    · simp [hx, List.filter_cons]
    · simp [hx, List.filter_cons]

theorem foldl_insertRev_perm (less : α → α → Bool) :
    ∀ (l acc : List α),
      (l.foldl (fun acc x => insertRev less x acc) acc) ~ acc ++ l
  | [], acc => by simp
  | x :: rest, acc => by
    calc (x :: rest).foldl (fun a y => insertRev less y a) acc
        = rest.foldl (fun a y => insertRev less y a)
            (insertRev less x acc) := List.foldl_cons _ _
      _ ~ insertRev less x acc ++ rest := foldl_insertRev_perm less rest _
      _ ~ (x :: acc) ++ rest :=
          (insertRev_perm less x acc).append_right rest
      _ = x :: (acc ++ rest) := rfl
      _ ~ acc ++ x :: rest := List.perm_middle.symm

theorem goSortSlice_perm (less : α → α → Bool) (l : List α) :
    goSortSlice less l ~ l := by
  unfold goSortSlice
  calc (l.foldl (fun acc x => insertRev less x acc) []).reverse
      ~ l.foldl (fun acc x => insertRev less x acc) [] :=
        (List.reverse_perm _)
    _ ~ [] ++ l := foldl_insertRev_perm less l []
    _ = l := by simp

theorem goSortSlice_pairwise (k : α → Nat) (l : List α) :
    (goSortSlice (fun a b => decide (k b < k a)) l).Pairwise
      (fun a b => k b ≤ k a) := by
  unfold goSortSlice
  rw [List.pairwise_reverse]
  exact foldl_insertRev_pairwise k l [] (by simp)

theorem goSortSlice_filter (k : α → Nat) (s : Nat) (l : List α) :
    (goSortSlice (fun a b => decide (k b < k a)) l).filter
        (fun a => decide (k a = s))
      = l.filter (fun a => decide (k a = s)) := by
  unfold goSortSlice
  rw [foldl_insertRev_filter k s l []]
  simp

end Tui

namespace Tui

/-- `CommandMatch` (`internal/tui/model.go`, lines 167-170). -/
structure CommandMatch where
  command : Command
  score : Nat
deriving DecidableEq, Repr

/-- `filterCommands` (`internal/tui/model.go`, lines 173-199): with an empty
query return the catalog unchanged; otherwise lowercase the query, keep the
entries scoring above zero (the Go `matches` slice, built by the loop
appending each positively scored entry in catalog order), and sort them by
score descending with `sort.Slice` (`goSortSlice`, see there). -/
def filterCommands (searchFilter : String) : List Command :=
  if searchFilter = "" then getAvailableCommands
  else
    let filter := lowerRunes searchFilter
    let scored := getAvailableCommands.filterMap (fun cmd =>
      if 0 < fuzzyMatchScore cmd filter then
        some (⟨cmd, fuzzyMatchScore cmd filter⟩ : CommandMatch)
      else none)
    (goSortSlice (fun a b => decide (b.score < a.score)) scored).map
      (fun m => m.command)

theorem filterMap_scored (f : Command → Nat) :
    ∀ l : List Command,
      (l.filterMap (fun cmd =>
        if 0 < f cmd then some (⟨cmd, f cmd⟩ : CommandMatch) else none))
      = (l.filter (fun c => decide (0 < f c))).map
          (fun c => (⟨c, f c⟩ : CommandMatch))
  | [] => rfl
  | c :: rest => by
    by_cases h : 0 < f c
    · simp [List.filterMap_cons, List.filter_cons, h, filterMap_scored f rest]
    · simp [List.filterMap_cons, List.filter_cons, h, filterMap_scored f rest]

theorem sortScored_mem (f : Command → Nat) (l : List Command) :
    ∀ m ∈ goSortSlice (fun a b : CommandMatch => decide (b.score < a.score))
        (l.map (fun c => (⟨c, f c⟩ : CommandMatch))),
      m.score = f m.command := by
  intro m hm
  have hp := (goSortSlice_perm _ _).mem_iff.mp hm
  rcases List.mem_map.mp hp with ⟨c, _, rfl⟩
  rfl

theorem sortScored_perm (f : Command → Nat) (l : List Command) :
    ((goSortSlice (fun a b : CommandMatch => decide (b.score < a.score))
        (l.map (fun c => (⟨c, f c⟩ : CommandMatch)))).map
      (fun m => m.command)) ~ l := by
  refine ((goSortSlice_perm _ _).map _).trans ?_
  rw [List.map_map]
  have hid : ((fun m : CommandMatch => m.command)
      ∘ (fun c => (⟨c, f c⟩ : CommandMatch))) = id := rfl
  rw [hid, List.map_id]

theorem sortScored_pairwise (f : Command → Nat) (l : List Command) :
    ((goSortSlice (fun a b : CommandMatch => decide (b.score < a.score))
        (l.map (fun c => (⟨c, f c⟩ : CommandMatch)))).map
      (fun m => m.command)).Pairwise (fun a b => f b ≤ f a) := by
  rw [List.pairwise_map]
  have hpw := goSortSlice_pairwise CommandMatch.score
    (l.map (fun c => (⟨c, f c⟩ : CommandMatch)))
  refine List.Pairwise.imp_of_mem ?_ hpw
  intro a b ha hb hab
  have h1 := sortScored_mem f l a ha
  have h2 := sortScored_mem f l b hb
  show f b.command ≤ f a.command
  omega

theorem sortScored_filter (f : Command → Nat) (s : Nat) (l : List Command) :
    (((goSortSlice (fun a b : CommandMatch => decide (b.score < a.score))
        (l.map (fun c => (⟨c, f c⟩ : CommandMatch)))).map
      (fun m => m.command)).filter (fun c => decide (f c = s)))
      = l.filter (fun c => decide (f c = s)) := by
  rw [List.filter_map]
  have hcongr : (goSortSlice
        (fun a b : CommandMatch => decide (b.score < a.score))
        (l.map (fun c => (⟨c, f c⟩ : CommandMatch)))).filter
        ((fun c => decide (f c = s)) ∘ (fun m => m.command))
      = (goSortSlice (fun a b : CommandMatch => decide (b.score < a.score))
          (l.map (fun c => (⟨c, f c⟩ : CommandMatch)))).filter
          (fun m => decide (m.score = s)) := by
    apply List.filter_congr
    intro m hm
    have := sortScored_mem f l m hm
    simp [this, Function.comp]
  rw [hcongr, goSortSlice_filter CommandMatch.score s, List.filter_map]
  have hcongr2 : ((fun m : CommandMatch => decide (m.score = s))
      ∘ (fun c => (⟨c, f c⟩ : CommandMatch))) = (fun c => decide (f c = s)) :=
    rfl
  rw [hcongr2, List.map_map]
  have hid : ((fun m : CommandMatch => m.command)
      ∘ (fun c => (⟨c, f c⟩ : CommandMatch))) = id := rfl
  rw [hid, List.map_id]

/-- C2 — for every non-empty query, `filterCommands` returns exactly the
catalog entries whose overall fuzzy score is positive (a permutation of the
score-positive filter of the catalog), ordered by score descending, and
entries of equal score keep their catalog order: filtering the result down
to any single score value gives exactly the corresponding catalog-ordered
sublist, so the sort is stable. -/
theorem filterCommands_sorted_stable (q : String) (hq : q ≠ "") :
    (filterCommands q
      ~ getAvailableCommands.filter
          (fun c => decide (0 < fuzzyMatchScore c (lowerRunes q)))) ∧
    (filterCommands q).Pairwise
        (fun a b => fuzzyMatchScore b (lowerRunes q)
          ≤ fuzzyMatchScore a (lowerRunes q)) ∧
    ∀ s : Nat,
      (filterCommands q).filter
          (fun c => decide (fuzzyMatchScore c (lowerRunes q) = s))
        = (getAvailableCommands.filter
            (fun c => decide (0 < fuzzyMatchScore c (lowerRunes q)))).filter
            (fun c => decide (fuzzyMatchScore c (lowerRunes q) = s)) := by
  have hunfold : filterCommands q
      = (goSortSlice (fun a b : CommandMatch => decide (b.score < a.score))
          ((getAvailableCommands.filter
              (fun c => decide (0 < fuzzyMatchScore c (lowerRunes q)))).map
            (fun c => (⟨c, fuzzyMatchScore c (lowerRunes q)⟩ :
              CommandMatch)))).map (fun m => m.command) := by
    unfold filterCommands
    rw [if_neg hq]
    simp only [filterMap_scored]
  refine ⟨?_, ?_, ?_⟩
  · rw [hunfold]
    exact sortScored_perm (fun c => fuzzyMatchScore c (lowerRunes q)) _
  · rw [hunfold]
    exact sortScored_pairwise (fun c => fuzzyMatchScore c (lowerRunes q)) _
  · intro s
    rw [hunfold]
    exact sortScored_filter (fun c => fuzzyMatchScore c (lowerRunes q)) s _

/-- C2 — witness: the query "scr" is non-empty; the theorem applies to it. -/
theorem filterCommands_sorted_stable_witness :
    ("scr" ≠ "") ∧
    ((filterCommands "scr"
      ~ getAvailableCommands.filter
          (fun c => decide (0 < fuzzyMatchScore c (lowerRunes "scr")))) ∧
    (filterCommands "scr").Pairwise
        (fun a b => fuzzyMatchScore b (lowerRunes "scr")
          ≤ fuzzyMatchScore a (lowerRunes "scr")) ∧
    ∀ s : Nat,
      (filterCommands "scr").filter
          (fun c => decide (fuzzyMatchScore c (lowerRunes "scr") = s))
        = (getAvailableCommands.filter
            (fun c => decide (0 < fuzzyMatchScore c (lowerRunes "scr")))).filter
            (fun c => decide (fuzzyMatchScore c (lowerRunes "scr") = s))) :=
  ⟨by decide, filterCommands_sorted_stable "scr" (by decide)⟩

end Tui

namespace Tui

/-- UI mode, `core.Mode` (aliased in `internal/tui/model.go`). -/
inductive Mode where
  | menu
  | deviceSelect
  | emulatorSelect
  | command
  | textInput
deriving DecidableEq, Repr

/-- `core.LogType`. -/
inductive LogType where
  | success
  | error
  | info
deriving DecidableEq, Repr

/-- `core.LogEntry`; the timestamp (`time.Now()`) is an opaque clock value
supplied by the environment. -/
structure LogEntry where
  message : String
  type : LogType
  timestamp : Nat
deriving DecidableEq, Repr

/-- `adb.Device` as the controller reads it: an opaque descriptor with a
serial identifier. -/
structure Device where
  serial : String
deriving DecidableEq, Repr

/-- `emulator.AVD` as the controller reads it. -/
structure AVD where
  name : String
deriving DecidableEq, Repr

/-- The TUI `Model` (`internal/tui/model.go`, lines 60-99), with the media
and wifi feature state inlined (`media.MediaFeature`,
`wifi.WiFiFeature` booleans live in the respective feature structs; the
first program version stores the wifi flags and the pairing address on the
model itself). The presentation-only `config` pointer and the
`progressTicker` animation counter are omitted — no claim mentions them and
no embedded transition reads them. -/
structure Model where
  devices : List Device
  avds : List AVD
  selectedDevice : Nat
  selectedEmulator : Nat
  selectedCommand : Nat
  mode : Mode
  err : Option String
  successMsg : String
  quitting : Bool
  logHistory : List LogEntry
  maxLogEntries : Nat
  loading : Bool
  takingScreenshot : Bool
  takingDayNight : Bool
  recordingScreen : Bool
  activeRecording : Option Unit
  textInput : String
  textInputPrompt : String
  textInputAction : String
  selectedDeviceForAction : Device
  connectingWiFi : Bool
  disconnectingWiFi : Bool
  pairingWiFi : Bool
  pairingAddress : String
  searchFilter : String
  filteredCommands : List Command
  selectedCommandIndex : Nat
  operationStartTime : Nat
deriving DecidableEq, Repr

/-- `NewModel` (`internal/tui/model.go`, lines 102-119); Go zero values for
the fields the constructor does not list. -/
def NewModel : Model where
  devices := []
  avds := []
  selectedDevice := 0
  selectedEmulator := 0
  selectedCommand := 0
  mode := .menu
  err := none
  successMsg := ""
  quitting := false
  logHistory := []
  maxLogEntries := 5
  loading := true
  takingScreenshot := false
  takingDayNight := false
  recordingScreen := false
  activeRecording := none
  textInput := ""
  textInputPrompt := ""
  textInputAction := ""
  selectedDeviceForAction := ⟨""⟩
  connectingWiFi := false
  disconnectingWiFi := false
  pairingWiFi := false
  pairingAddress := ""
  searchFilter := ""
  filteredCommands := filterCommands ""
  selectedCommandIndex := 0
  operationStartTime := 0

/-- The normalization `addLogEntry` applies to every stored message:
`strings.TrimSpace(strings.ReplaceAll(message, "\t", "  "))`. -/
def normalizeLogMessage (message : String) : String :=
  String.mk (trimSpace (replaceTabs message.toList))

/-- `addLogEntry` (`internal/tui/model.go`, lines 122-142): append the
normalized entry, keep only the last `maxLogEntries` entries, clear the old
success/error message fields. -/
def addLogEntry (m : Model) (message : String) (t : LogType) (now : Nat) :
    Model :=
  let entry : LogEntry := ⟨normalizeLogMessage message, t, now⟩
  let logHistory := m.logHistory ++ [entry]
  let logHistory :=
    if m.maxLogEntries < logHistory.length then
      logHistory.drop (logHistory.length - m.maxLogEntries)
    else logHistory
  { m with logHistory := logHistory, successMsg := "", err := none }

/-- `addSuccess`. -/
def addSuccess (m : Model) (message : String) (now : Nat) : Model :=
  addLogEntry m message .success now

/-- `addError`. -/
def addError (m : Model) (message : String) (now : Nat) : Model :=
  addLogEntry m message .error now

/-- `addInfo`. -/
def addInfo (m : Model) (message : String) (now : Nat) : Model :=
  addLogEntry m message .info now

/-- `clearLogs`. -/
def clearLogs (m : Model) : Model :=
  { m with logHistory := [], successMsg := "", err := none }

/-- A `tea.Cmd` the controller can return: each constructor is one of the
asynchronous operations dispatched by `internal/tui/model.go` (`nil`
commands are `Option.none` at the call sites); `batch` is `tea.Batch`,
always used there with exactly two commands. -/
inductive Cmd where
  | loadDevices
  | loadAVDs
  | takeScreenshot (d : Device)
  | takeDayNightScreenshots (d : Device)
  | startRecording (d : Device)
  | stopAndSaveRecording
  | getCurrentSetting (d : Device) (settingType : String)
  | changeSetting (d : Device) (settingType : String) (input : String)
  | connectWiFi (input : String)
  | disconnectWiFi (input : String)
  | pairWiFi (address : String) (code : String)
  | doTick
  | quit
  | batch (first : Cmd) (second : Cmd)
deriving DecidableEq, Repr

/-- Environment for the synchronous effects the key handler performs:
the clock read by `time.Now()` and the result of the synchronous
`emulator.LaunchEmulator` call. -/
structure Env where
  now : Nat
  launchEmulatorResult : AVD → Option String

/-- `executeScreenshot` (`internal/tui/model.go`, lines 569-576). -/
def executeScreenshot (env : Env) (m : Model) (device : Device) :
    Model × Option Cmd :=
  let m := { m with mode := .menu }
  let m := clearLogs m
  let m := { m with
                    takingScreenshot := true,
                    operationStartTime := env.now }
  (m, some (.batch (.takeScreenshot device) .doTick))

/-- `executeDayNightScreenshots` (lines 579-586). -/
def executeDayNightScreenshots (env : Env) (m : Model) (device : Device) :
    Model × Option Cmd :=
  let m := { m with mode := .menu }
  let m := clearLogs m
  let m := { m with
                    takingDayNight := true,
                    operationStartTime := env.now }
  (m, some (.batch (.takeDayNightScreenshots device) .doTick))

/-- `executeScreenRecord` (lines 662-669). -/
def executeScreenRecord (env : Env) (m : Model) (device : Device) :
    Model × Option Cmd :=
  let m := { m with mode := .menu }
  let m := clearLogs m
  let m := { m with
                    recordingScreen := true,
                    operationStartTime := env.now }
  (m, some (.batch (.startRecording device) .doTick))

/-- `startSettingChange` (lines 682-687); the setting type is its Go string
value ("dpi", "fontsize", "screensize"). -/
def startSettingChange (m : Model) (device : Device)
    (settingType : String) : Model × Option Cmd :=
  let m := { m with
                    selectedDeviceForAction := device,
                    textInputAction := settingType }
  (m, some (.getCurrentSetting device settingType))

/-- `stopRecording` (lines 672-679). -/
def stopRecording (m : Model) : Model × Option Cmd :=
  match m.activeRecording with
  | some _ => (m, some .stopAndSaveRecording)
  | none =>
    ({ m with recordingScreen := false, activeRecording := none }, none)

/-- `executeCommandForDevice` (lines 635-659). -/
def executeCommandForDevice (env : Env) (m : Model) (device : Device) :
    Model × Option Cmd :=
  match m.filteredCommands.get? m.selectedCommandIndex with
  | none => (m, none)
  | some selectedCmd =>
    if selectedCmd.command = "screenshot" then
      executeScreenshot env m device
    else if selectedCmd.command = "screenshot-day-night" then
      executeDayNightScreenshots env m device
    else if selectedCmd.command = "screen-record" then
      executeScreenRecord env m device
    else if selectedCmd.command = "change-dpi" then
      startSettingChange m device "dpi"
    else if selectedCmd.command = "change-font-size" then
      startSettingChange m device "fontsize"
    else if selectedCmd.command = "change-screen-size" then
      startSettingChange m device "screensize"
    else
      executeScreenshot env m device

/-- `executeSelectedCommand` (lines 589-632). -/
def executeSelectedCommand (env : Env) (m : Model) : Model × Option Cmd :=
  match m.filteredCommands.get? m.selectedCommandIndex with
  | none => (m, none)
  | some selectedCmd =>
    let m := { m with selectedCommand := m.selectedCommandIndex }
    if selectedCmd.command = "launch-emulator" then
      ({ m with mode := .emulatorSelect }, some .loadAVDs)
    else if selectedCmd.command = "connect-wifi" then
      ({ m with
          mode := .textInput,
          textInputPrompt :=
            "Enter IP address or IP:port (e.g., 192.168.1.100 or 192.168.1.100:5555)\nDefaults to port 4444 if not specified",
          textInputAction := "wifi_connect", textInput := "" }, none)
    else if selectedCmd.command = "pair-wifi" then
      ({ m with
          mode := .textInput,
          textInputPrompt :=
            "Enter pairing address from phone (e.g., 192.168.3.30:43719)",
          textInputAction := "wifi_pair_address", textInput := "" }, none)
    else if selectedCmd.command = "disconnect-wifi" then
      ({ m with
          mode := .textInput,
          textInputPrompt :=
            "Enter IP address or IP:port to disconnect (e.g., 192.168.1.100 or 192.168.1.100:5555)\nDefaults to port 4444 if not specified",
          textInputAction := "wifi_disconnect", textInput := "" }, none)
    else if selectedCmd.command = "refresh-devices" then
      (clearLogs m, some .loadDevices)
    else
      match m.devices with
      | [d] => executeCommandForDevice env m d
      | _ => ({ m with mode := .deviceSelect }, none)

/-- `launchEmulator` (lines 790-804): the synchronous
`emulator.LaunchEmulator` call's outcome comes from the environment. -/
def launchEmulator (env : Env) (m : Model) (avd : AVD) :
    Model × Option Cmd :=
  let m := { m with mode := .menu, err := none, successMsg := "" }
  match env.launchEmulatorResult avd with
  | some e =>
    ({ m with err := some ("failed to launch emulator: " ++ e) }, none)
  | none =>
    let m := addSuccess m
      ("Launched emulator: " ++ avd.name ++ " (may take a moment to appear)")
      env.now
    (m, some .loadDevices)

/-- `executeSettingChange` (lines 718-726). -/
def executeSettingChange (m : Model) (settingType : String) :
    Model × Option Cmd :=
  let input := m.textInput
  let m := { m with textInput := "" }
  (m, some (.changeSetting m.selectedDeviceForAction settingType input))

/-- `executeWiFiConnect` (lines 729-742). -/
def executeWiFiConnect (env : Env) (m : Model) : Model × Option Cmd :=
  let m := { m with mode := .menu }
  let m := clearLogs m
  let m := { m with connectingWiFi := true, operationStartTime := env.now }
  let input := m.textInput
  let m := { m with
                    textInput := "", textInputPrompt := "",
                    textInputAction := "" }
  (m, some (.batch (.connectWiFi input) .doTick))

/-- `executeWiFiDisconnect` (lines 745-758). -/
def executeWiFiDisconnect (env : Env) (m : Model) : Model × Option Cmd :=
  let m := { m with mode := .menu }
  let m := clearLogs m
  let m := { m with disconnectingWiFi := true,
                    operationStartTime := env.now }
  let input := m.textInput
  let m := { m with
                    textInput := "", textInputPrompt := "",
                    textInputAction := "" }
  (m, some (.batch (.disconnectWiFi input) .doTick))

/-- `handlePairingAddressInput` (lines 761-769): first step of pairing,
stores the address and re-prompts for the code. -/
def handlePairingAddressInput (m : Model) : Model × Option Cmd :=
  let m := { m with pairingAddress := m.textInput }
  let m := { m with textInput := "" }
  let m := { m with textInputPrompt :=
    "Enter 6-digit pairing code from phone for " ++ m.pairingAddress }
  let m := { m with textInputAction := "wifi_pair_code" }
  (m, none)

/-- `executeWiFiPair` (lines 772-787): second step, dispatches the pairing
and clears the stored address. -/
def executeWiFiPair (env : Env) (m : Model) : Model × Option Cmd :=
  let m := { m with mode := .menu }
  let m := clearLogs m
  let m := { m with pairingWiFi := true, operationStartTime := env.now }
  let pairingCode := m.textInput
  let pairingAddress := m.pairingAddress
  let m := { m with
                    textInput := "", textInputPrompt := "",
                    textInputAction := "", pairingAddress := "" }
  (m, some (.batch (.pairWiFi pairingAddress pairingCode) .doTick))

/-- `handleTextInputSubmit` (lines 690-715). -/
def handleTextInputSubmit (env : Env) (m : Model) : Model × Option Cmd :=
  if m.textInputAction = "dpi" ∨ m.textInputAction = "fontsize" ∨
      m.textInputAction = "screensize" then
    executeSettingChange m m.textInputAction
  else if m.textInputAction = "wifi_connect" then
    executeWiFiConnect env m
  else if m.textInputAction = "wifi_disconnect" then
    executeWiFiDisconnect env m
  else if m.textInputAction = "wifi_pair_address" then
    handlePairingAddressInput m
  else if m.textInputAction = "wifi_pair_code" then
    executeWiFiPair env m
  else
    ({ m with
        mode := .menu, textInput := "", textInputPrompt := "",
        textInputAction := "" }, none)

/-- The `ModeMenu` case of `handleKeyPress`'s mode switch (lines 455-500).
Keys are the strings `msg.String()` returns; a printable keystroke is a
length-one string. Go's `int` comparison `idx < len(list)-1` agrees with the
`Nat` truncated subtraction used here since both sides are non-negative. -/
def handleMenuKey (env : Env) (m : Model) (key : String) :
    Model × Option Cmd :=
  if key = "ctrl+c" then (m, some .quit)
  else if key = "esc" then
    if m.searchFilter ≠ "" then
      let m := { m with searchFilter := "" }
      let m := { m with filteredCommands := filterCommands m.searchFilter,
                        selectedCommandIndex := 0 }
      (m, none)
    else (m, none)
  else if key = "up" then
    (if 0 < m.selectedCommandIndex then
      { m with selectedCommandIndex := m.selectedCommandIndex - 1 }
    else m, none)
  else if key = "down" then
    (if m.selectedCommandIndex < m.filteredCommands.length - 1 then
      { m with selectedCommandIndex := m.selectedCommandIndex + 1 }
    else m, none)
  else if key = "enter" then
    if 0 < m.filteredCommands.length ∧
        m.selectedCommandIndex < m.filteredCommands.length then
      executeSelectedCommand env m
    else (m, none)
  else if key = "backspace" then
    if 0 < m.searchFilter.length then
      let m := { m with searchFilter := m.searchFilter.dropRight 1 }
      let m := { m with
        filteredCommands := filterCommands m.searchFilter }
      let m := if m.filteredCommands.length ≤ m.selectedCommandIndex
        then { m with selectedCommandIndex := 0 } else m
      (m, none)
    else (m, none)
  else if key.length = 1 then
    let m := { m with searchFilter := m.searchFilter ++ key }
    let m := { m with filteredCommands := filterCommands m.searchFilter,
                      selectedCommandIndex := 0 }
    (m, none)
  else (m, none)

/-- The `ModeDeviceSelect` case of `handleKeyPress` (lines 501-520). -/
def handleDeviceSelectKey (env : Env) (m : Model) (key : String) :
    Model × Option Cmd :=
  if key = "esc" then ({ m with mode := .menu }, none)
  else if key = "up" ∨ key = "k" ∨ key = "h" then
    (if 0 < m.selectedDevice then
      { m with selectedDevice := m.selectedDevice - 1 }
    else m, none)
  else if key = "down" ∨ key = "j" ∨ key = "l" then
    (if m.selectedDevice < m.devices.length - 1 then
      { m with selectedDevice := m.selectedDevice + 1 }
    else m, none)
  else if key = "enter" then
    match m.devices.get? m.selectedDevice with
    | some d => executeCommandForDevice env m d
    | none => (m, none)
  else (m, none)

/-- The `ModeEmulatorSelect` case of `handleKeyPress` (lines 521-540). -/
def handleEmulatorSelectKey (env : Env) (m : Model) (key : String) :
    Model × Option Cmd :=
  if key = "esc" then ({ m with mode := .menu }, none)
  else if key = "up" ∨ key = "k" ∨ key = "h" then
    (if 0 < m.selectedEmulator then
      { m with selectedEmulator := m.selectedEmulator - 1 }
    else m, none)
  else if key = "down" ∨ key = "j" ∨ key = "l" then
    (if m.selectedEmulator < m.avds.length - 1 then
      { m with selectedEmulator := m.selectedEmulator + 1 }
    else m, none)
  else if key = "enter" then
    match m.avds.get? m.selectedEmulator with
    | some avd => launchEmulator env m avd
    | none => (m, none)
  else (m, none)

/-- The `ModeTextInput` case of `handleKeyPress` (lines 541-562). -/
def handleTextInputKey (env : Env) (m : Model) (key : String) :
    Model × Option Cmd :=
  if key = "enter" then handleTextInputSubmit env m
  else if key = "esc" then
    ({ m with
        mode := .menu, textInput := "", textInputPrompt := "",
        textInputAction := "" }, none)
  else if key = "backspace" then
    (if 0 < m.textInput.length then
      { m with textInput := m.textInput.dropRight 1 }
    else m, none)
  else if key.length = 1 then
    ({ m with textInput := m.textInput ++ key }, none)
  else (m, none)

/-- `handleKeyPress` (lines 448-566): the global recording-escape guard,
then the mode switch, each case a function above; `ModeCommand` has no case
in the Go switch, so the function falls through to `(m, nil)`. -/
def handleKeyPress (env : Env) (m : Model) (key : String) :
    Model × Option Cmd :=
  if m.recordingScreen ∧ key = "esc" then stopRecording m
  else
    match m.mode with
    | .menu => handleMenuKey env m key
    | .deviceSelect => handleDeviceSelectKey env m key
    | .emulatorSelect => handleEmulatorSelectKey env m key
    | .textInput => handleTextInputKey env m key
    | .command => (m, none)

/-- The inbox messages of `Update` (`internal/tui/model.go`, lines 314-333)
whose handling the claims reference: keystrokes and the two enumeration
results (`devicesLoadedMsg`, `avdsLoadedMsg`). -/
inductive Msg where
  | key (k : String)
  | devicesLoaded (devices : List Device) (err : Option String)
  | avdsLoaded (avds : List AVD) (err : Option String)

/-- `Update` (`internal/tui/model.go`, lines 314-333) on the embedded
messages. -/
def update (env : Env) (m : Model) : Msg → Model × Option Cmd
  | .key k => handleKeyPress env m k
  | .devicesLoaded ds e =>
    let m := { m with devices := ds, err := e, loading := false }
    let m := if m.devices.length = 0 ∧ m.err = none then
        { m with err := some "no devices connected" }
      else m
    (m, none)
  | .avdsLoaded avds e =>
    let m := { m with avds := avds }
    let m := match e with
      | some _ => { m with err := e, mode := .menu }
      | none => m
    (m, none)

/-- Run a sequence of messages through `update`, keeping the model. -/
def runMsgs (env : Env) (m : Model) (msgs : List Msg) : Model :=
  msgs.foldl (fun mm msg => (update env mm msg).1) m

/-- A fixed environment for concrete runs: clock at 0, emulator launches
succeed. -/
def env0 : Env := ⟨0, fun _ => none⟩

end Tui

theorem head?_dropWhile_not (p : α → Bool) :
    ∀ (l : List α) (c : α), (l.dropWhile p).head? = some c → p c = false := by
  intro l
  induction l with
  | nil => intro c h; simp [List.dropWhile] at h
  | cons a rest ih =>
    intro c h
    rw [List.dropWhile_cons] at h
    by_cases hp : p a
    · exact ih c (by simpa [hp] using h)
    · simp only [if_neg hp, List.head?_cons, Option.some.injEq] at h
      rw [← h]
      simpa using hp

theorem trimSpace_head (l : List Char) :
    ∀ c, (trimSpace l).head? = some c → goIsSpace c = false := by
  intro c hc
  have hpre : (trimSpace l) <+: (l.dropWhile goIsSpace) := by
    have h1 : ((l.dropWhile goIsSpace).reverse.dropWhile goIsSpace)
        <:+ (l.dropWhile goIsSpace).reverse := List.dropWhile_suffix _
    have h2 := List.reverse_prefix.mpr h1
    rwa [List.reverse_reverse] at h2
  rcases hpre with ⟨tl, htl⟩
  cases htr : trimSpace l with
  | nil => rw [htr] at hc; simp at hc
  | cons a rest =>
    rw [htr] at hc
    simp only [List.head?_cons, Option.some.injEq] at hc
    have hA : (l.dropWhile goIsSpace).head? = some a := by
      rw [← htl, htr]; rfl
    rw [← hc]
    exact head?_dropWhile_not goIsSpace l a hA

theorem trimSpace_last (l : List Char) :
    ∀ c, (trimSpace l).getLast? = some c → goIsSpace c = false := by
  intro c hc
  unfold trimSpace at hc
  rw [List.getLast?_reverse] at hc
  exact head?_dropWhile_not goIsSpace _ c hc

theorem mem_trimSpace (l : List Char) (a : Char) (h : a ∈ trimSpace l) :
    a ∈ l := by
  unfold trimSpace at h
  rw [List.mem_reverse] at h
  have h1 := (List.dropWhile_suffix
    (l := (l.dropWhile goIsSpace).reverse) goIsSpace).sublist.subset h
  rw [List.mem_reverse] at h1
  exact (List.dropWhile_suffix goIsSpace).sublist.subset h1

theorem tab_not_mem_replaceTabs :
    ∀ l : List Char, ('\t' : Char) ∉ replaceTabs l := by
  intro l
  induction l with
  | nil => simp [replaceTabs]
  | cons c rest ih =>
    simp only [replaceTabs, List.mem_append]
    rintro (h | h)
    · by_cases hc : c = '\t'
      · simp [hc] at h
      · simp [hc] at h
        exact hc h.symm
    · exact ih h

namespace Tui

theorem addLogEntry_getLast (m : Model) (message : String) (t : LogType)
    (now : Nat) (hmax : 0 < m.maxLogEntries) :
    (addLogEntry m message t now).logHistory.getLast?
      = some ⟨normalizeLogMessage message, t, now⟩ := by
  unfold addLogEntry
  simp only []
  split
  · next h =>
    have hk : (m.logHistory
          ++ [(⟨normalizeLogMessage message, t, now⟩ : LogEntry)]).length
          - m.maxLogEntries ≤ m.logHistory.length := by
      simp only [List.length_append, List.length_cons, List.length_nil]
      omega
    rw [List.drop_append_of_le_length hk, List.getLast?_concat]
  · rw [List.getLast?_concat]

/-- C10 — every entry appended to the log history stores the normalized
message `TrimSpace(ReplaceAll(msg, "\t", "  "))`, not the raw one — also
when entering through `addSuccess`, `addError` or `addInfo` — and the stored
message contains no tab character and no leading or trailing whitespace. -/
theorem addLogEntry_normalizes (m : Model) (message : String) (t : LogType)
    (now : Nat) (hmax : 0 < m.maxLogEntries) :
    (addLogEntry m message t now).logHistory.getLast?
        = some ⟨normalizeLogMessage message, t, now⟩ ∧
    (addSuccess m message now).logHistory.getLast?
        = some ⟨normalizeLogMessage message, .success, now⟩ ∧
    (addError m message now).logHistory.getLast?
        = some ⟨normalizeLogMessage message, .error, now⟩ ∧
    (addInfo m message now).logHistory.getLast?
        = some ⟨normalizeLogMessage message, .info, now⟩ ∧
    normalizeLogMessage message
        = String.mk (trimSpace (replaceTabs message.toList)) ∧
    ('\t' : Char) ∉ (normalizeLogMessage message).toList ∧
    (∀ c, (normalizeLogMessage message).toList.head? = some c →
      goIsSpace c = false) ∧
    (∀ c, (normalizeLogMessage message).toList.getLast? = some c →
      goIsSpace c = false) := by
  have htl : (normalizeLogMessage message).toList
      = trimSpace (replaceTabs message.toList) := rfl
  refine ⟨addLogEntry_getLast m message t now hmax,
    addLogEntry_getLast m message .success now hmax,
    addLogEntry_getLast m message .error now hmax,
    addLogEntry_getLast m message .info now hmax,
    rfl, ?_, ?_, ?_⟩
  · rw [htl]
    intro hmem
    exact tab_not_mem_replaceTabs message.toList (mem_trimSpace _ _ hmem)
  · rw [htl]
    exact trimSpace_head _
  · rw [htl]
    exact trimSpace_last _

/-- C10 — witness at a concrete message containing a tab and stray
whitespace. -/
theorem addLogEntry_normalizes_witness :
    0 < NewModel.maxLogEntries ∧
    (addLogEntry NewModel " a\tb " .info 7).logHistory.getLast?
      = some ⟨normalizeLogMessage " a\tb ", .info, 7⟩ ∧
    normalizeLogMessage " a\tb " = "a  b" :=
  ⟨by decide,
    (addLogEntry_normalizes NewModel " a\tb " .info 7 (by decide)).1,
    by decide⟩

theorem addLogEntry_bound (m : Model) (message : String) (t : LogType)
    (now : Nat) (h5 : m.maxLogEntries = 5)
    (hlen : m.logHistory.length ≤ 5) :
    (addLogEntry m message t now).logHistory.length ≤ 5 ∧
    (addLogEntry m message t now).maxLogEntries = 5 := by
  unfold addLogEntry
  refine ⟨?_, h5⟩
  simp only []
  split
  · next h =>
    simp only [List.length_drop, List.length_append, List.length_cons,
      List.length_nil]
    omega
  · next h =>
    simp only [List.length_append, List.length_cons, List.length_nil] at h ⊢
    omega

/-- C4 — (a) starting from any model respecting the 5-entry bound (such as
`NewModel`, whose history is empty), any sequence of log insertions leaves
at most 5 entries; (b) inserting into a full 5-entry history drops exactly
the oldest entry and appends the new one at the end (FIFO). -/
theorem logHistory_bounded_fifo :
    (∀ (inserts : List (String × LogType × Nat)) (m : Model),
      m.maxLogEntries = 5 → m.logHistory.length ≤ 5 →
      (inserts.foldl (fun mm e => addLogEntry mm e.1 e.2.1 e.2.2)
        m).logHistory.length ≤ 5) ∧
    (∀ (m : Model) (message : String) (t : LogType) (now : Nat),
      m.maxLogEntries = 5 → m.logHistory.length = 5 →
      (addLogEntry m message t now).logHistory
        = m.logHistory.tail
          ++ [⟨normalizeLogMessage message, t, now⟩]) := by
  constructor
  · intro inserts
    induction inserts with
    | nil => intro m h5 hlen; exact hlen
    | cons e rest ih =>
      intro m h5 hlen
      have hstep := addLogEntry_bound m e.1 e.2.1 e.2.2 h5 hlen
      exact ih _ hstep.2 hstep.1
  · intro m message t now h5 hlen
    unfold addLogEntry
    simp only []
    rw [if_pos (by simp [hlen, h5])]
    have hk : (m.logHistory
          ++ [(⟨normalizeLogMessage message, t, now⟩ : LogEntry)]).length
          - m.maxLogEntries ≤ m.logHistory.length := by
      simp only [List.length_append, List.length_cons, List.length_nil]
      omega
    rw [List.drop_append_of_le_length hk]
    have : (m.logHistory
          ++ [(⟨normalizeLogMessage message, t, now⟩ : LogEntry)]).length
          - m.maxLogEntries = 1 := by
      simp only [List.length_append, List.length_cons, List.length_nil]
      omega
    rw [this, ← List.drop_one]

/-- C4 — witness: six insertions into the fresh model leave 5 entries, and
the sixth insertion into the then-full history evicts the oldest. -/
theorem logHistory_bounded_fifo_witness :
    NewModel.maxLogEntries = 5 ∧ NewModel.logHistory.length ≤ 5 ∧
    (([("m1", LogType.info, 1), ("m2", .info, 2), ("m3", .info, 3),
      ("m4", .info, 4), ("m5", .info, 5), ("m6", .info, 6)].foldl
        (fun mm e => addLogEntry mm e.1 e.2.1 e.2.2)
        NewModel).logHistory.length ≤ 5) :=
  ⟨by decide, by decide,
    logHistory_bounded_fifo.1 _ NewModel (by decide) (by decide)⟩

end Tui

namespace Tui

/-- The six model fields the selection-index claims read: the three
selection indices and their three underlying lists. -/
def selFieldsEq (m' m : Model) : Prop :=
  m'.selectedDevice = m.selectedDevice ∧
  m'.selectedEmulator = m.selectedEmulator ∧
  m'.selectedCommandIndex = m.selectedCommandIndex ∧
  m'.filteredCommands = m.filteredCommands ∧
  m'.devices = m.devices ∧ m'.avds = m.avds

theorem addLogEntry_selFields (m : Model) (message : String) (t : LogType)
    (now : Nat) : selFieldsEq (addLogEntry m message t now) m := by
  unfold selFieldsEq addLogEntry
  simp

theorem clearLogs_selFields (m : Model) : selFieldsEq (clearLogs m) m := by
  unfold selFieldsEq clearLogs
  simp

theorem executeScreenshot_selFields (env : Env) (m : Model) (d : Device) :
    selFieldsEq (executeScreenshot env m d).1 m := by
  unfold selFieldsEq executeScreenshot clearLogs
  simp

theorem executeDayNightScreenshots_selFields (env : Env) (m : Model)
    (d : Device) : selFieldsEq (executeDayNightScreenshots env m d).1 m := by
  unfold selFieldsEq executeDayNightScreenshots clearLogs
  simp

theorem executeScreenRecord_selFields (env : Env) (m : Model) (d : Device) :
    selFieldsEq (executeScreenRecord env m d).1 m := by
  unfold selFieldsEq executeScreenRecord clearLogs
  simp

theorem startSettingChange_selFields (m : Model) (d : Device) (st : String) :
    selFieldsEq (startSettingChange m d st).1 m := by
  unfold selFieldsEq startSettingChange
  simp

theorem stopRecording_selFields (m : Model) :
    selFieldsEq (stopRecording m).1 m := by
  unfold selFieldsEq stopRecording
  cases m.activeRecording <;> simp

theorem executeCommandForDevice_selFields (env : Env) (m : Model)
    (d : Device) : selFieldsEq (executeCommandForDevice env m d).1 m := by
  unfold executeCommandForDevice
  cases m.filteredCommands.get? m.selectedCommandIndex with
  | none => exact ⟨rfl, rfl, rfl, rfl, rfl, rfl⟩
  | some c =>
    simp only []
    split_ifs <;>
      first
        | exact executeScreenshot_selFields env m d
        | exact executeDayNightScreenshots_selFields env m d
        | exact executeScreenRecord_selFields env m d
        | exact startSettingChange_selFields m d _

theorem executeSelectedCommand_selFields (env : Env) (m : Model) :
    selFieldsEq (executeSelectedCommand env m).1 m := by
  unfold executeSelectedCommand
  cases hg : m.filteredCommands.get? m.selectedCommandIndex with
  | none => exact ⟨rfl, rfl, rfl, rfl, rfl, rfl⟩
  | some c =>
    simp only []
    have hbase : selFieldsEq
        ({ m with selectedCommand := m.selectedCommandIndex }) m := by
      unfold selFieldsEq
      simp
    split_ifs
    · unfold selFieldsEq at *
      simpa using hbase
    · unfold selFieldsEq at *
      simpa using hbase
    · unfold selFieldsEq at *
      simpa using hbase
    · unfold selFieldsEq at *
      simpa using hbase
    · have := clearLogs_selFields
        ({ m with selectedCommand := m.selectedCommandIndex })
      unfold selFieldsEq at *
      simp only [] at this ⊢
      simpa using this
    · split
      · next d _ =>
        have h1 := executeCommandForDevice_selFields env
          ({ m with selectedCommand := m.selectedCommandIndex }) d
        unfold selFieldsEq at *
        simpa using h1
      · unfold selFieldsEq
        simp

theorem launchEmulator_selFields (env : Env) (m : Model) (avd : AVD) :
    selFieldsEq (launchEmulator env m avd).1 m := by
  unfold launchEmulator
  cases env.launchEmulatorResult avd with
  | some e =>
    unfold selFieldsEq
    simp
  | none =>
    simp only []
    have h1 := addLogEntry_selFields
      ({ m with mode := Mode.menu, err := none, successMsg := "" })
      ("Launched emulator: " ++ avd.name ++ " (may take a moment to appear)")
      .success env.now
    unfold selFieldsEq at *
    simpa using h1

theorem handleTextInputSubmit_selFields (env : Env) (m : Model) :
    selFieldsEq (handleTextInputSubmit env m).1 m := by
  unfold handleTextInputSubmit executeSettingChange executeWiFiConnect
    executeWiFiDisconnect handlePairingAddressInput executeWiFiPair clearLogs
  split_ifs <;> (unfold selFieldsEq; simp)

end Tui

namespace Tui

/-- Selection-index safety for the device list: the index is valid, or is 0
(the only possibility when the list is empty). -/
def devInv (m : Model) : Prop :=
  m.selectedDevice = 0 ∨ m.selectedDevice < m.devices.length

/-- Selection-index safety for the emulator list. -/
def emuInv (m : Model) : Prop :=
  m.selectedEmulator = 0 ∨ m.selectedEmulator < m.avds.length

/-- Selection-index safety for the filtered command list. -/
def cmdInv (m : Model) : Prop :=
  m.selectedCommandIndex = 0 ∨
    m.selectedCommandIndex < m.filteredCommands.length

theorem inv_transfer {m' m : Model} (h : selFieldsEq m' m) :
    (devInv m → devInv m') ∧ (emuInv m → emuInv m') ∧
    (cmdInv m → cmdInv m') := by
  obtain ⟨h1, h2, h3, h4, h5, h6⟩ := h
  unfold devInv emuInv cmdInv
  rw [h1, h2, h3, h4, h5, h6]
  exact ⟨id, id, id⟩

attribute [irreducible] filterCommands executeScreenshot
  executeDayNightScreenshots executeScreenRecord startSettingChange
  stopRecording executeCommandForDevice executeSelectedCommand
  launchEmulator executeSettingChange executeWiFiConnect
  executeWiFiDisconnect handlePairingAddressInput executeWiFiPair
  handleTextInputSubmit addLogEntry addSuccess addError addInfo clearLogs

end Tui

namespace Tui

theorem handleMenuKey_devSide (env : Env) (m : Model) (key : String) :
    (handleMenuKey env m key).1.selectedDevice = m.selectedDevice ∧
    (handleMenuKey env m key).1.devices = m.devices ∧
    (handleMenuKey env m key).1.selectedEmulator = m.selectedEmulator ∧
    (handleMenuKey env m key).1.avds = m.avds := by
  unfold handleMenuKey
  by_cases h1 : key = "ctrl+c"
  · rw [if_pos h1]
    exact ⟨rfl, rfl, rfl, rfl⟩
  rw [if_neg h1]
  by_cases h2 : key = "esc"
  · rw [if_pos h2]
    by_cases h3 : m.searchFilter ≠ ""
    · rw [if_pos h3]
      exact ⟨rfl, rfl, rfl, rfl⟩
    · rw [if_neg h3]
      exact ⟨rfl, rfl, rfl, rfl⟩
  rw [if_neg h2]
  by_cases h4 : key = "up"
  · rw [if_pos h4]
    refine ⟨?_, ?_, ?_, ?_⟩ <;> (split <;> rfl)
  rw [if_neg h4]
  by_cases h5 : key = "down"
  · rw [if_pos h5]
    refine ⟨?_, ?_, ?_, ?_⟩ <;> (split <;> rfl)
  rw [if_neg h5]
  by_cases h6 : key = "enter"
  · rw [if_pos h6]
    by_cases h7 : 0 < m.filteredCommands.length ∧
        m.selectedCommandIndex < m.filteredCommands.length
    · rw [if_pos h7]
      obtain ⟨a, b, c, d, e, f⟩ := executeSelectedCommand_selFields env m
      exact ⟨a, e, b, f⟩
    · rw [if_neg h7]
      exact ⟨rfl, rfl, rfl, rfl⟩
  rw [if_neg h6]
  by_cases h8 : key = "backspace"
  · rw [if_pos h8]
    by_cases h9 : 0 < m.searchFilter.length
    · rw [if_pos h9]
      dsimp only
      refine ⟨?_, ?_, ?_, ?_⟩ <;> (first | rfl | (split <;> rfl))
    · rw [if_neg h9]
      exact ⟨rfl, rfl, rfl, rfl⟩
  rw [if_neg h8]
  by_cases h10 : key.length = 1
  · rw [if_pos h10]
    exact ⟨rfl, rfl, rfl, rfl⟩
  · rw [if_neg h10]
    exact ⟨rfl, rfl, rfl, rfl⟩

theorem handleMenuKey_cmdInv (env : Env) (m : Model) (key : String)
    (h : cmdInv m) : cmdInv (handleMenuKey env m key).1 := by
  unfold handleMenuKey
  by_cases h1 : key = "ctrl+c"
  · rw [if_pos h1]
    exact h
  rw [if_neg h1]
  by_cases h2 : key = "esc"
  · rw [if_pos h2]
    by_cases h3 : m.searchFilter ≠ ""
    · rw [if_pos h3]
      exact Or.inl rfl
    · rw [if_neg h3]
      exact h
  rw [if_neg h2]
  by_cases h4 : key = "up"
  · rw [if_pos h4]
    by_cases h5 : 0 < m.selectedCommandIndex
    · rw [if_pos h5]
      unfold cmdInv at h ⊢
      dsimp only
      omega
    · rw [if_neg h5]
      exact h
  rw [if_neg h4]
  by_cases h6 : key = "down"
  · rw [if_pos h6]
    by_cases h7 : m.selectedCommandIndex < m.filteredCommands.length - 1
    · rw [if_pos h7]
      unfold cmdInv at h ⊢
      dsimp only
      omega
    · rw [if_neg h7]
      exact h
  rw [if_neg h6]
  by_cases h8 : key = "enter"
  · rw [if_pos h8]
    by_cases h9 : 0 < m.filteredCommands.length ∧
        m.selectedCommandIndex < m.filteredCommands.length
    · rw [if_pos h9]
      obtain ⟨_, _, c, d, _, _⟩ := executeSelectedCommand_selFields env m
      unfold cmdInv at h ⊢
      rw [c, d]
      exact h
    · rw [if_neg h9]
      exact h
  rw [if_neg h8]
  by_cases h10 : key = "backspace"
  · rw [if_pos h10]
    by_cases h11 : 0 < m.searchFilter.length
    · rw [if_pos h11]
      unfold cmdInv at h ⊢
      dsimp only
      split
      · exact Or.inl rfl
      · next h12 =>
        dsimp only at h12 ⊢
        omega
    · rw [if_neg h11]
      exact h
  rw [if_neg h10]
  by_cases h13 : key.length = 1
  · rw [if_pos h13]
    exact Or.inl rfl
  · rw [if_neg h13]
    exact h

theorem handleDeviceSelectKey_others (env : Env) (m : Model) (key : String) :
    (handleDeviceSelectKey env m key).1.selectedEmulator
        = m.selectedEmulator ∧
    (handleDeviceSelectKey env m key).1.avds = m.avds ∧
    (handleDeviceSelectKey env m key).1.selectedCommandIndex
        = m.selectedCommandIndex ∧
    (handleDeviceSelectKey env m key).1.filteredCommands
        = m.filteredCommands ∧
    (handleDeviceSelectKey env m key).1.devices = m.devices := by
  unfold handleDeviceSelectKey
  by_cases h1 : key = "esc"
  · rw [if_pos h1]
    exact ⟨rfl, rfl, rfl, rfl, rfl⟩
  rw [if_neg h1]
  by_cases h2 : key = "up" ∨ key = "k" ∨ key = "h"
  · rw [if_pos h2]
    refine ⟨?_, ?_, ?_, ?_, ?_⟩ <;> (split <;> rfl)
  rw [if_neg h2]
  by_cases h3 : key = "down" ∨ key = "j" ∨ key = "l"
  · rw [if_pos h3]
    refine ⟨?_, ?_, ?_, ?_, ?_⟩ <;> (split <;> rfl)
  rw [if_neg h3]
  by_cases h4 : key = "enter"
  · rw [if_pos h4]
    split
    · next d _ =>
      obtain ⟨_, b, c, d2, e, f⟩ := executeCommandForDevice_selFields env m d
      exact ⟨b, f, c, d2, e⟩
    · exact ⟨rfl, rfl, rfl, rfl, rfl⟩
  · rw [if_neg h4]
    exact ⟨rfl, rfl, rfl, rfl, rfl⟩

theorem handleDeviceSelectKey_devInv (env : Env) (m : Model) (key : String)
    (h : devInv m) : devInv (handleDeviceSelectKey env m key).1 := by
  unfold handleDeviceSelectKey
  by_cases h1 : key = "esc"
  · rw [if_pos h1]
    unfold devInv at h ⊢
    dsimp only
    exact h
  rw [if_neg h1]
  by_cases h2 : key = "up" ∨ key = "k" ∨ key = "h"
  · rw [if_pos h2]
    by_cases h5 : 0 < m.selectedDevice
    · rw [if_pos h5]
      unfold devInv at h ⊢
      dsimp only
      omega
    · rw [if_neg h5]
      exact h
  rw [if_neg h2]
  by_cases h3 : key = "down" ∨ key = "j" ∨ key = "l"
  · rw [if_pos h3]
    by_cases h6 : m.selectedDevice < m.devices.length - 1
    · rw [if_pos h6]
      unfold devInv at h ⊢
      dsimp only
      omega
    · rw [if_neg h6]
      exact h
  rw [if_neg h3]
  by_cases h4 : key = "enter"
  · rw [if_pos h4]
    split
    · next d _ =>
      obtain ⟨a, _, _, _, e, _⟩ := executeCommandForDevice_selFields env m d
      unfold devInv at h ⊢
      rw [a, e]
      exact h
    · exact h
  · rw [if_neg h4]
    exact h

theorem handleEmulatorSelectKey_others (env : Env) (m : Model)
    (key : String) :
    (handleEmulatorSelectKey env m key).1.selectedDevice
        = m.selectedDevice ∧
    (handleEmulatorSelectKey env m key).1.devices = m.devices ∧
    (handleEmulatorSelectKey env m key).1.selectedCommandIndex
        = m.selectedCommandIndex ∧
    (handleEmulatorSelectKey env m key).1.filteredCommands
        = m.filteredCommands ∧
    (handleEmulatorSelectKey env m key).1.avds = m.avds := by
  unfold handleEmulatorSelectKey
  by_cases h1 : key = "esc"
  · rw [if_pos h1]
    exact ⟨rfl, rfl, rfl, rfl, rfl⟩
  rw [if_neg h1]
  by_cases h2 : key = "up" ∨ key = "k" ∨ key = "h"
  · rw [if_pos h2]
    refine ⟨?_, ?_, ?_, ?_, ?_⟩ <;> (split <;> rfl)
  rw [if_neg h2]
  by_cases h3 : key = "down" ∨ key = "j" ∨ key = "l"
  · rw [if_pos h3]
    refine ⟨?_, ?_, ?_, ?_, ?_⟩ <;> (split <;> rfl)
  rw [if_neg h3]
  by_cases h4 : key = "enter"
  · rw [if_pos h4]
    split
    · next avd _ =>
      obtain ⟨a, b, c, d2, e, f⟩ := launchEmulator_selFields env m avd
      exact ⟨a, e, c, d2, f⟩
    · exact ⟨rfl, rfl, rfl, rfl, rfl⟩
  · rw [if_neg h4]
    exact ⟨rfl, rfl, rfl, rfl, rfl⟩

theorem handleEmulatorSelectKey_emuInv (env : Env) (m : Model)
    (key : String) (h : emuInv m) :
    emuInv (handleEmulatorSelectKey env m key).1 := by
  unfold handleEmulatorSelectKey
  by_cases h1 : key = "esc"
  · rw [if_pos h1]
    unfold emuInv at h ⊢
    dsimp only
    exact h
  rw [if_neg h1]
  by_cases h2 : key = "up" ∨ key = "k" ∨ key = "h"
  · rw [if_pos h2]
    by_cases h5 : 0 < m.selectedEmulator
    · rw [if_pos h5]
      unfold emuInv at h ⊢
      dsimp only
      omega
    · rw [if_neg h5]
      exact h
  rw [if_neg h2]
  by_cases h3 : key = "down" ∨ key = "j" ∨ key = "l"
  · rw [if_pos h3]
    by_cases h6 : m.selectedEmulator < m.avds.length - 1
    · rw [if_pos h6]
      unfold emuInv at h ⊢
      dsimp only
      omega
    · rw [if_neg h6]
      exact h
  rw [if_neg h3]
  by_cases h4 : key = "enter"
  · rw [if_pos h4]
    split
    · next avd _ =>
      obtain ⟨_, b, _, _, _, f⟩ := launchEmulator_selFields env m avd
      unfold emuInv at h ⊢
      rw [b, f]
      exact h
    · exact h
  · rw [if_neg h4]
    exact h

theorem handleTextInputKey_selFields (env : Env) (m : Model)
    (key : String) : selFieldsEq (handleTextInputKey env m key).1 m := by
  unfold handleTextInputKey
  by_cases h1 : key = "enter"
  · rw [if_pos h1]
    exact handleTextInputSubmit_selFields env m
  rw [if_neg h1]
  by_cases h2 : key = "esc"
  · rw [if_pos h2]
    exact ⟨rfl, rfl, rfl, rfl, rfl, rfl⟩
  rw [if_neg h2]
  by_cases h3 : key = "backspace"
  · rw [if_pos h3]
    unfold selFieldsEq
    refine ⟨?_, ?_, ?_, ?_, ?_, ?_⟩ <;> (split <;> rfl)
  rw [if_neg h3]
  by_cases h4 : key.length = 1
  · rw [if_pos h4]
    exact ⟨rfl, rfl, rfl, rfl, rfl, rfl⟩
  · rw [if_neg h4]
    exact ⟨rfl, rfl, rfl, rfl, rfl, rfl⟩

theorem handleKeyPress_inv (env : Env) (m : Model) (k : String) :
    (devInv m → devInv (handleKeyPress env m k).1) ∧
    (emuInv m → emuInv (handleKeyPress env m k).1) ∧
    (cmdInv m → cmdInv (handleKeyPress env m k).1) := by
  unfold handleKeyPress
  by_cases hrec : m.recordingScreen ∧ k = "esc"
  · rw [if_pos hrec]
    exact inv_transfer (stopRecording_selFields m)
  · rw [if_neg hrec]
    split
    · -- menu
      refine ⟨fun h => ?_, fun h => ?_, fun h => ?_⟩
      · obtain ⟨a, e, b, f⟩ := handleMenuKey_devSide env m k
        unfold devInv at h ⊢
        rw [a, e]
        exact h
      · obtain ⟨a, e, b, f⟩ := handleMenuKey_devSide env m k
        unfold emuInv at h ⊢
        rw [b, f]
        exact h
      · exact handleMenuKey_cmdInv env m k h
    · -- deviceSelect
      refine ⟨fun h => ?_, fun h => ?_, fun h => ?_⟩
      · exact handleDeviceSelectKey_devInv env m k h
      · obtain ⟨b, f, c, d, e⟩ := handleDeviceSelectKey_others env m k
        unfold emuInv at h ⊢
        rw [b, f]
        exact h
      · obtain ⟨b, f, c, d, e⟩ := handleDeviceSelectKey_others env m k
        unfold cmdInv at h ⊢
        rw [c, d]
        exact h
    · -- emulatorSelect
      refine ⟨fun h => ?_, fun h => ?_, fun h => ?_⟩
      · obtain ⟨a, e, c, d, f⟩ := handleEmulatorSelectKey_others env m k
        unfold devInv at h ⊢
        rw [a, e]
        exact h
      · exact handleEmulatorSelectKey_emuInv env m k h
      · obtain ⟨a, e, c, d, f⟩ := handleEmulatorSelectKey_others env m k
        unfold cmdInv at h ⊢
        rw [c, d]
        exact h
    · -- textInput
      exact inv_transfer (handleTextInputKey_selFields env m k)
    · -- command
      exact ⟨id, id, id⟩

end Tui

namespace Tui

/-- C3 (amended) — what the controller actually guarantees about selection
indices: (a) a device-enumeration result (`devicesLoadedMsg`) replaces the
device list and leaves every selection index unchanged — it does not clamp;
(b) likewise an `avdsLoadedMsg`; (c) keystroke handling preserves the
index-safety invariant `index = 0 ∨ index < length(list)` for all three
selection indices (navigation is bounds-guarded, and search-query edits
reset or clamp the command index), so only the enumeration messages can
leave an index out of range, and the dispatch sites are guarded against
that. -/
theorem selection_index_amended (env : Env) (m : Model) :
    (∀ ds e,
      (update env m (.devicesLoaded ds e)).1.selectedDevice
          = m.selectedDevice ∧
      (update env m (.devicesLoaded ds e)).1.selectedEmulator
          = m.selectedEmulator ∧
      (update env m (.devicesLoaded ds e)).1.selectedCommandIndex
          = m.selectedCommandIndex ∧
      (update env m (.devicesLoaded ds e)).1.devices = ds) ∧
    (∀ avs e,
      (update env m (.avdsLoaded avs e)).1.selectedDevice
          = m.selectedDevice ∧
      (update env m (.avdsLoaded avs e)).1.selectedEmulator
          = m.selectedEmulator ∧
      (update env m (.avdsLoaded avs e)).1.selectedCommandIndex
          = m.selectedCommandIndex ∧
      (update env m (.avdsLoaded avs e)).1.avds = avs) ∧
    (∀ k, (devInv m → devInv (update env m (.key k)).1) ∧
          (emuInv m → emuInv (update env m (.key k)).1) ∧
          (cmdInv m → cmdInv (update env m (.key k)).1)) := by
  refine ⟨?_, ?_, ?_⟩
  · intro ds e
    unfold update
    dsimp only
    split <;> exact ⟨rfl, rfl, rfl, rfl⟩
  · intro avs e
    unfold update
    dsimp only
    split <;> exact ⟨rfl, rfl, rfl, rfl⟩
  · intro k
    exact handleKeyPress_inv env m k

/-- C3 (amended) — witness: a concrete enumeration result leaves the
selection unchanged, and a concrete keystroke preserves the invariant. -/
theorem selection_index_amended_witness :
    ((update env0 NewModel (.devicesLoaded [⟨"d1"⟩] none)).1.selectedDevice
        = NewModel.selectedDevice) ∧
    devInv NewModel ∧
    devInv (update env0 NewModel (.key "up")).1 :=
  ⟨((selection_index_amended env0 NewModel).1 [⟨"d1"⟩] none).1,
   Or.inl rfl,
   ((selection_index_amended env0 NewModel).2.2 "up").1 (Or.inl rfl)⟩

set_option allowUnsafeReducibility true in
attribute [semireducible] filterCommands executeScreenshot
  executeDayNightScreenshots executeScreenRecord startSettingChange
  stopRecording executeCommandForDevice executeSelectedCommand
  launchEmulator executeSettingChange executeWiFiConnect
  executeWiFiDisconnect handlePairingAddressInput executeWiFiPair
  handleTextInputSubmit addLogEntry addSuccess addError addInfo clearLogs

/-- C3 — counterexample. A real run: three devices load, the user opens
device selection (enter on the screenshot command) and moves the cursor to
the third device; then a device-enumeration result shrinks the list to one
device. The handler stores the new list without touching
`selectedDevice`, which remains 2 — outside the one-element list — so the
index is not reset to a valid value as claimed. -/
theorem selection_index_counterexample :
    (runMsgs env0 NewModel
      [.devicesLoaded [⟨"d1"⟩, ⟨"d2"⟩, ⟨"d3"⟩] none,
       .key "enter", .key "down", .key "down",
       .devicesLoaded [⟨"d1"⟩] none]).selectedDevice = 2 ∧
    (runMsgs env0 NewModel
      [.devicesLoaded [⟨"d1"⟩, ⟨"d2"⟩, ⟨"d3"⟩] none,
       .key "enter", .key "down", .key "down",
       .devicesLoaded [⟨"d1"⟩] none]).devices.length = 1 ∧
    ¬ ((runMsgs env0 NewModel
      [.devicesLoaded [⟨"d1"⟩, ⟨"d2"⟩, ⟨"d3"⟩] none,
       .key "enter", .key "down", .key "down",
       .devicesLoaded [⟨"d1"⟩] none]).selectedDevice
        < (runMsgs env0 NewModel
          [.devicesLoaded [⟨"d1"⟩, ⟨"d2"⟩, ⟨"d3"⟩] none,
           .key "enter", .key "down", .key "down",
           .devicesLoaded [⟨"d1"⟩] none]).devices.length) := by
  refine ⟨by decide, by decide, by decide⟩

end Tui

namespace Tui

/-- C8 (amended) — from `DeviceSelect`, `EmulatorSelect` or `TextInput`,
with no recording in progress, the escape keystroke returns the session to
`Menu`, dispatches no command, changes no activity flag (so all stay unset
if they were unset), and — for `TextInput` — clears the pending text,
prompt and action; the stored pairing address (the pending context between
the two pairing prompts) is NOT cleared on cancel: it is retained and only
cleared when the pairing flow's second step is submitted. -/
theorem cancel_returns_to_menu (env : Env) (m : Model)
    (hrec : m.recordingScreen = false)
    (hmode : m.mode = Mode.deviceSelect ∨ m.mode = Mode.emulatorSelect ∨
      m.mode = Mode.textInput) :
    (handleKeyPress env m "esc").2 = none ∧
    (handleKeyPress env m "esc").1.mode = Mode.menu ∧
    (handleKeyPress env m "esc").1.takingScreenshot = m.takingScreenshot ∧
    (handleKeyPress env m "esc").1.takingDayNight = m.takingDayNight ∧
    (handleKeyPress env m "esc").1.recordingScreen = false ∧
    (handleKeyPress env m "esc").1.connectingWiFi = m.connectingWiFi ∧
    (handleKeyPress env m "esc").1.disconnectingWiFi
        = m.disconnectingWiFi ∧
    (handleKeyPress env m "esc").1.pairingWiFi = m.pairingWiFi ∧
    (m.mode = Mode.textInput →
      (handleKeyPress env m "esc").1.textInput = "" ∧
      (handleKeyPress env m "esc").1.textInputPrompt = "" ∧
      (handleKeyPress env m "esc").1.textInputAction = "") ∧
    (handleKeyPress env m "esc").1.pairingAddress = m.pairingAddress := by
  rcases hmode with h | h | h
  · unfold handleKeyPress
    rw [if_neg (by simp [hrec]), h]
    dsimp only
    unfold handleDeviceSelectKey
    rw [if_pos rfl]
    refine ⟨rfl, rfl, rfl, rfl, hrec, rfl, rfl, rfl, ?_, rfl⟩
    intro h'
    exact absurd h' (by decide)
  · unfold handleKeyPress
    rw [if_neg (by simp [hrec]), h]
    dsimp only
    unfold handleEmulatorSelectKey
    rw [if_pos rfl]
    refine ⟨rfl, rfl, rfl, rfl, hrec, rfl, rfl, rfl, ?_, rfl⟩
    intro h'
    exact absurd h' (by decide)
  · unfold handleKeyPress
    rw [if_neg (by simp [hrec]), h]
    dsimp only
    unfold handleTextInputKey
    rw [if_neg (by decide), if_pos rfl]
    exact ⟨rfl, rfl, rfl, rfl, hrec, rfl, rfl, rfl,
      fun _ => ⟨rfl, rfl, rfl⟩, rfl⟩

/-- A concrete mid-pairing state: text-input mode with a stored pairing
address, no recording. -/
def cancelWitnessModel : Model :=
  { NewModel with
      mode := Mode.textInput, pairingAddress := "10.0.0.1:4444",
      textInputAction := "wifi_pair_code" }

/-- C8 (amended) — witness at the concrete mid-pairing state. -/
theorem cancel_returns_to_menu_witness :
    cancelWitnessModel.recordingScreen = false ∧
    cancelWitnessModel.mode = Mode.textInput ∧
    (handleKeyPress env0 cancelWitnessModel "esc").1.mode = Mode.menu ∧
    (handleKeyPress env0 cancelWitnessModel "esc").1.pairingAddress
      = cancelWitnessModel.pairingAddress :=
  ⟨rfl, rfl,
    (cancel_returns_to_menu env0 cancelWitnessModel rfl
      (Or.inr (Or.inr rfl))).2.1,
    (cancel_returns_to_menu env0 cancelWitnessModel rfl
      (Or.inr (Or.inr rfl))).2.2.2.2.2.2.2.2.2⟩

/-- The model reached by a real run: open pair-wifi (seventh catalog
entry), type the pairing address, submit it (first pairing step), then
cancel with escape while the code prompt is showing. -/
def pairingCancelRun : Model :=
  runMsgs env0 NewModel
    [.key "down", .key "down", .key "down", .key "down", .key "down",
     .key "down", .key "enter", .key "1", .key ".", .key "2", .key ".",
     .key "3", .key ".", .key "4", .key "enter", .key "esc"]

/-- C8 — counterexample. After cancelling the pairing flow's second prompt
with escape, the session is back in `Menu` with text, prompt and action
cleared, but the stored pairing address — the pending text context the
claim says is cleared — still holds the address typed in the first step. -/
theorem cancel_pairing_counterexample :
    pairingCancelRun.mode = Mode.menu ∧
    pairingCancelRun.textInput = "" ∧
    pairingCancelRun.textInputAction = "" ∧
    pairingCancelRun.pairingAddress = "1.2.3.4" ∧
    pairingCancelRun.pairingAddress ≠ "" := by
  refine ⟨by decide, by decide, by decide, by decide, by decide⟩

end Tui

namespace Capture

/-- A process-wide output destination: the original handle or the write end
of a capture pipe (identified by its descriptor number). -/
inductive Dest where
  | original
  | pipeW (fd : Nat)
deriving DecidableEq, Repr

/-- The process-level state the capture code touches: the two output
destinations (`os.Stdout`, `os.Stderr`), the set of open pipe descriptors,
a fresh-descriptor counter, and the oracle deciding whether each successive
`os.Pipe()` call succeeds (an empty oracle means success). -/
structure Sys where
  stdout : Dest
  stderr : Dest
  openFds : List Nat
  nextFd : Nat
  pipeOk : List Bool
deriving DecidableEq, Repr

/-- `os.Pipe()`: on success allocates a fresh reader/writer descriptor
pair. -/
def osPipe (s : Sys) : Option (Nat × Nat) × Sys :=
  match s.pipeOk with
  | [] =>
    (some (s.nextFd, s.nextFd + 1),
     { s with openFds := s.openFds ++ [s.nextFd, s.nextFd + 1],
              nextFd := s.nextFd + 2 })
  | ok :: rest =>
    if ok then
      (some (s.nextFd, s.nextFd + 1),
       { s with openFds := s.openFds ++ [s.nextFd, s.nextFd + 1],
                nextFd := s.nextFd + 2, pipeOk := rest })
    else (none, { s with pipeOk := rest })

/-- `File.Close()` on a descriptor. -/
def closeFd (s : Sys) (fd : Nat) : Sys :=
  { s with openFds := s.openFds.erase fd }

/-- `OutputCapture` (`internal/capture`, lines 11-23): saved destinations,
the four pipe descriptors, the two line channels (capacity 100), the
number of running line-reader tasks (`wg`), and the `capturing` flag. -/
structure OutputCapture where
  originalStdout : Option Dest
  originalStderr : Option Dest
  stdoutReader : Option Nat
  stdoutWriter : Option Nat
  stderrReader : Option Nat
  stderrWriter : Option Nat
  outputCh : List String
  errorCh : List String
  readerTasks : Nat
  capturing : Bool
deriving DecidableEq, Repr

/-- `NewOutputCapture` (lines 26-31). -/
def NewOutputCapture : OutputCapture :=
  ⟨none, none, none, none, none, none, [], [], 0, false⟩

/-- `Start` (lines 34-75): a no-op when already capturing; otherwise save
the current destinations, create the two pipes (closing the first pair and
returning the error if the second creation fails), install the write ends
as the process destinations, and start the two line-reader tasks. -/
def start (oc : OutputCapture) (s : Sys) :
    OutputCapture × Sys × Option String :=
  if oc.capturing then (oc, s, none)
  else
    let oc := { oc with originalStdout := some s.stdout,
                        originalStderr := some s.stderr }
    match osPipe s with
    | (none, s) => (oc, s, some "pipe creation failed")
    | (some (r1, w1), s) =>
      let oc := { oc with stdoutReader := some r1, stdoutWriter := some w1 }
      match osPipe s with
      | (none, s) =>
        let s := closeFd (closeFd s r1) w1
        (oc, s, some "pipe creation failed")
      | (some (r2, w2), s) =>
        let oc := { oc with stderrReader := some r2,
                            stderrWriter := some w2 }
        let s := { s with stdout := Dest.pipeW w1,
                          stderr := Dest.pipeW w2 }
        let oc := { oc with readerTasks := oc.readerTasks + 2,
                            capturing := true }
        (oc, s, none)

/-- `Stop` (lines 78-103): a no-op when not capturing; otherwise restore
the saved destinations, close the write ends, wait for the reader tasks to
drain, close the read ends, and clear the flag. -/
def stop (oc : OutputCapture) (s : Sys) :
    OutputCapture × Sys × Option String :=
  if oc.capturing then
    let s := { s with stdout := oc.originalStdout.getD Dest.original,
                      stderr := oc.originalStderr.getD Dest.original }
    let s := closeFd (closeFd s (oc.stdoutWriter.getD 0))
      (oc.stderrWriter.getD 0)
    let oc := { oc with readerTasks := 0 }
    let s := closeFd (closeFd s (oc.stdoutReader.getD 0))
      (oc.stderrReader.getD 0)
    ({ oc with capturing := false }, s, none)
  else (oc, s, none)

/-- `readOutput`'s effect on a channel (lines 106-120): each non-empty line
is pushed with a non-blocking send into the capacity-100 channel —
a full channel drops the line. -/
def pushLines (q : List String) (lines : List String) : List String :=
  lines.foldl
    (fun q line =>
      if line ≠ "" then (if q.length < 100 then q ++ [line] else q) else q)
    q

/-- A wrapped operation for `CaptureFunction`: the lines it prints to the
primary and diagnostic streams while running, and the error it returns. -/
structure Op where
  outLines : List String
  errLines : List String
  result : Option String
deriving DecidableEq, Repr

/-- `CaptureFunction` (lines 149-170): `Start`; on a start error return
`(nil, err)` without running the operation (the final `Bool` of the result
records whether the operation ran); otherwise run the operation (its
printed lines flow through the pipes into the channels), `Stop`, and
return `GetAllOutput()` — the primary-stream lines followed by the
diagnostic-stream lines — paired with the operation's own error. -/
def CaptureFunction (op : Op) (s : Sys) :
    (List String × Option String) × Sys × Bool :=
  let capture := NewOutputCapture
  match start capture s with
  | (_, s, some e) => (([], some e), s, false)
  | (capture, s, none) =>
    let capture := { capture with
      outputCh := pushLines capture.outputCh op.outLines,
      errorCh := pushLines capture.errorCh op.errLines }
    let fnErr := op.result
    match stop capture s with
    | (_, s, some stopErr) => (([], some stopErr), s, true)
    | (capture, s, none) =>
      ((capture.outputCh ++ capture.errorCh, fnErr), s, true)

theorem start_capturing (oc : OutputCapture) (s : Sys)
    (h : (start oc s).2.2 = none) : (start oc s).1.capturing = true := by
  unfold start at *
  by_cases hc : oc.capturing
  · rw [if_pos hc] at h ⊢
    exact hc
  · rw [if_neg hc] at h ⊢
    rcases h1 : osPipe s with ⟨_ | ⟨a, b⟩, s1⟩
    · rw [h1] at h
      simp at h
    · rw [h1] at h
      dsimp only at h ⊢
      rcases h2 : osPipe s1 with ⟨_ | ⟨c, d⟩, s2⟩
      · rw [h2] at h
        simp at h
      · rw [h2] at h

/-- C6 — `Start` is idempotent and `Stop` without a prior `Start` is a
no-op: if a `Start` call succeeded, running `Start` again (in any
process state) returns immediately with no error and changes neither the
capture state nor the process state; and `Stop` on a non-capturing
instance returns no error and leaves both the capture state and the
output destinations (the whole process state) unchanged. -/
theorem start_stop_idempotent (oc : OutputCapture) (s t : Sys)
    (hok : (start oc s).2.2 = none) (hnc : oc.capturing = false) :
    start (start oc s).1 t = ((start oc s).1, t, none) ∧
    stop oc s = (oc, s, none) := by
  constructor
  · have hc := start_capturing oc s hok
    generalize hg : (start oc s).1 = oc1 at hc ⊢
    unfold start
    rw [if_pos hc]
  · unfold stop
    rw [if_neg (by rw [hnc]; exact fun h => Bool.noConfusion h)]

/-- C6 — witness: from the fresh instance in a clean process state,
`Start` succeeds, a second `Start` is the identity, and `Stop` without a
prior `Start` is a no-op. -/
theorem start_stop_idempotent_witness :
    ((start NewOutputCapture ⟨Dest.original, Dest.original, [], 3, []⟩).2.2
      = none) ∧
    NewOutputCapture.capturing = false ∧
    (start (start NewOutputCapture
        ⟨Dest.original, Dest.original, [], 3, []⟩).1
        ⟨Dest.original, Dest.original, [], 7, []⟩
      = ((start NewOutputCapture
          ⟨Dest.original, Dest.original, [], 3, []⟩).1,
         ⟨Dest.original, Dest.original, [], 7, []⟩, none)) ∧
    stop NewOutputCapture ⟨Dest.original, Dest.original, [], 3, []⟩
      = (NewOutputCapture, ⟨Dest.original, Dest.original, [], 3, []⟩,
         none) :=
  ⟨by decide, by decide,
    (start_stop_idempotent NewOutputCapture
      ⟨Dest.original, Dest.original, [], 3, []⟩
      ⟨Dest.original, Dest.original, [], 7, []⟩
      (by decide) (by decide)).1,
    (start_stop_idempotent NewOutputCapture
      ⟨Dest.original, Dest.original, [], 3, []⟩
      ⟨Dest.original, Dest.original, [], 7, []⟩
      (by decide) (by decide)).2⟩

end Capture

namespace Capture

theorem stop_no_error (oc : OutputCapture) (s : Sys) :
    (stop oc s).2.2 = none := by
  unfold stop
  split <;> rfl

theorem start_channels (oc : OutputCapture) (s : Sys) :
    (start oc s).1.outputCh = oc.outputCh ∧
    (start oc s).1.errorCh = oc.errorCh := by
  unfold start
  by_cases hc : oc.capturing
  · rw [if_pos hc]
    exact ⟨rfl, rfl⟩
  · rw [if_neg hc]
    dsimp only
    rcases h1 : osPipe s with ⟨_ | ⟨a, b⟩, s1⟩
    · exact ⟨rfl, rfl⟩
    · dsimp only
      rcases h2 : osPipe s1 with ⟨_ | ⟨c, d⟩, s2⟩
      · exact ⟨rfl, rfl⟩
      · exact ⟨rfl, rfl⟩

theorem stop_channels (oc : OutputCapture) (s : Sys) :
    (stop oc s).1.outputCh = oc.outputCh ∧
    (stop oc s).1.errorCh = oc.errorCh := by
  unfold stop
  split <;> exact ⟨rfl, rfl⟩

/-- C5 — `CaptureFunction` never swallows or replaces the wrapped
operation's error: whenever capture setup succeeded (the operation ran,
recorded by the result's `Bool`), the returned error is exactly the
operation's own error and the returned lines are the captured lines of
both streams; and when setup failed the operation did not run and the
returned error is exactly the `Start` error, which is present — so the two
error kinds remain distinguishable. -/
theorem captureFunction_error_propagation (op : Op) (s : Sys) :
    ((CaptureFunction op s).2.2 = true →
      (CaptureFunction op s).1.2 = op.result ∧
      (CaptureFunction op s).1.1
        = pushLines [] op.outLines ++ pushLines [] op.errLines) ∧
    ((CaptureFunction op s).2.2 = false →
      (CaptureFunction op s).1.2 = (start NewOutputCapture s).2.2 ∧
      (start NewOutputCapture s).2.2 ≠ none) := by
  unfold CaptureFunction
  dsimp only
  rcases hs : start NewOutputCapture s with ⟨oc1, s1, e1⟩
  cases e1 with
  | some err =>
    dsimp only
    exact ⟨fun hran => absurd hran (by simp), fun _ => ⟨rfl, by simp⟩⟩
  | none =>
    have h01 : oc1.outputCh = [] := by
      have h := (start_channels NewOutputCapture s).1
      rw [hs] at h
      simpa using h
    have h02 : oc1.errorCh = [] := by
      have h := (start_channels NewOutputCapture s).2
      rw [hs] at h
      simpa using h
    dsimp only
    split
    · rename_i x s2 stopErr heq
      have hns := stop_no_error
        { oc1 with outputCh := pushLines oc1.outputCh op.outLines,
                   errorCh := pushLines oc1.errorCh op.errLines } s1
      rw [heq] at hns
      simp at hns
    · rename_i oc2 s2 heq
      have h2o : oc2.outputCh = pushLines oc1.outputCh op.outLines := by
        have h := (stop_channels
          { oc1 with outputCh := pushLines oc1.outputCh op.outLines,
                     errorCh := pushLines oc1.errorCh op.errLines } s1).1
        rw [heq] at h
        simpa using h
      have h2e : oc2.errorCh = pushLines oc1.errorCh op.errLines := by
        have h := (stop_channels
          { oc1 with outputCh := pushLines oc1.outputCh op.outLines,
                     errorCh := pushLines oc1.errorCh op.errLines } s1).2
        rw [heq] at h
        simpa using h
      refine ⟨fun _ => ⟨rfl, ?_⟩, fun hran => absurd hran (by simp)⟩
      rw [h2o, h2e, h01, h02]

/-- C5 — witness: an operation printing "hello"/"world" and failing with
"boom" is captured with its own error returned unchanged. -/
theorem captureFunction_error_propagation_witness :
    (CaptureFunction ⟨["hello", "world"], [], some "boom"⟩
        ⟨Dest.original, Dest.original, [], 3, []⟩).2.2 = true ∧
    (CaptureFunction ⟨["hello", "world"], [], some "boom"⟩
        ⟨Dest.original, Dest.original, [], 3, []⟩).1.2 = some "boom" ∧
    (CaptureFunction ⟨["hello", "world"], [], some "boom"⟩
        ⟨Dest.original, Dest.original, [], 3, []⟩).1.1
      = ["hello", "world"] :=
  ⟨by decide,
    by
      rw [((captureFunction_error_propagation
        ⟨["hello", "world"], [], some "boom"⟩
        ⟨Dest.original, Dest.original, [], 3, []⟩).1 (by decide)).1],
    by
      rw [((captureFunction_error_propagation
        ⟨["hello", "world"], [], some "boom"⟩
        ⟨Dest.original, Dest.original, [], 3, []⟩).1 (by decide)).2]
      decide⟩

theorem osPipe_none (s s1 : Sys) (h : osPipe s = (none, s1)) :
    s1.stdout = s.stdout ∧ s1.stderr = s.stderr ∧
    s1.openFds = s.openFds ∧ s1.nextFd = s.nextFd := by
  unfold osPipe at h
  rcases hp : s.pipeOk with _ | ⟨ok, rest⟩
  · rw [hp] at h
    simp at h
  · rw [hp] at h
    cases ok with
    | true => simp at h
    | false =>
      simp only [Bool.false_eq_true, if_false, Prod.mk.injEq] at h
      rw [← h.2]
      exact ⟨rfl, rfl, rfl, rfl⟩

theorem osPipe_some (s s1 : Sys) (r w : Nat)
    (h : osPipe s = (some (r, w), s1)) :
    s1.stdout = s.stdout ∧ s1.stderr = s.stderr ∧
    s1.openFds = s.openFds ++ [s.nextFd, s.nextFd + 1] ∧
    r = s.nextFd ∧ w = s.nextFd + 1 ∧ s1.nextFd = s.nextFd + 2 := by
  unfold osPipe at h
  rcases hp : s.pipeOk with _ | ⟨ok, rest⟩
  · rw [hp] at h
    simp only [Prod.mk.injEq, Option.some.injEq] at h
    obtain ⟨⟨hr, hw⟩, hs1⟩ := h
    rw [← hs1]
    exact ⟨rfl, rfl, rfl, hr.symm, hw.symm, rfl⟩
  · rw [hp] at h
    cases ok with
    | true =>
      simp only [if_true, Prod.mk.injEq, Option.some.injEq] at h
      obtain ⟨⟨hr, hw⟩, hs1⟩ := h
      rw [← hs1]
      exact ⟨rfl, rfl, rfl, hr.symm, hw.symm, rfl⟩
    | false => simp at h

/-- C9 — a failed `Start` leaves the capture state clean: the process
output destinations are not redirected, no line-reader tasks are started,
the `capturing` flag stays false, and every pipe descriptor created during
the call has been closed again (the set of open descriptors is unchanged),
so a failed `Start` can be retried safely and never leaks the global
redirection. The well-formedness hypothesis says open descriptors are
below the allocation counter (true of every reachable state). -/
theorem start_failure_no_leak (oc : OutputCapture) (s : Sys)
    (hwf : ∀ fd ∈ s.openFds, fd < s.nextFd) (e : String)
    (h : (start oc s).2.2 = some e) :
    (start oc s).2.1.stdout = s.stdout ∧
    (start oc s).2.1.stderr = s.stderr ∧
    (start oc s).1.capturing = false ∧
    (start oc s).1.readerTasks = oc.readerTasks ∧
    (start oc s).2.1.openFds = s.openFds := by
  unfold start at h ⊢
  by_cases hc : oc.capturing
  · rw [if_pos hc] at h
    simp at h
  · rw [if_neg hc] at h ⊢
    dsimp only at h ⊢
    rcases h1 : osPipe s with ⟨_ | ⟨a, b⟩, s1⟩
    · rw [h1] at h
      obtain ⟨e1, e2, e3, _⟩ := osPipe_none s s1 h1
      simp only [Bool.not_eq_true] at hc
      exact ⟨e1, e2, hc, rfl, e3⟩
    · rw [h1] at h
      dsimp only at h ⊢
      rcases h2 : osPipe s1 with ⟨_ | ⟨c, d⟩, s2⟩
      · rw [h2] at h
        obtain ⟨f1, f2, f3, f4, f5, _⟩ := osPipe_some s s1 a b h1
        obtain ⟨g1, g2, g3, _⟩ := osPipe_none s1 s2 h2
        simp only [Bool.not_eq_true] at hc
        refine ⟨?_, ?_, hc, rfl, ?_⟩
        · show s2.stdout = s.stdout
          rw [g1, f1]
        · show s2.stderr = s.stderr
          rw [g2, f2]
        · show ((s2.openFds.erase a).erase b) = s.openFds
          rw [g3, f3, f4, f5]
          rw [List.erase_append_right _
            (fun hmem => absurd (hwf _ hmem) (by omega))]
          rw [List.erase_cons_head]
          rw [List.erase_append_right _
            (fun hmem => absurd (hwf _ hmem) (by omega))]
          simp
      · rw [h2] at h
        simp at h

/-- C9 — witness: in a clean state whose pipe oracle fails the second
creation, `Start` reports the error and leaves destinations and open
descriptors untouched. -/
theorem start_failure_no_leak_witness :
    (∀ fd ∈ ([] : List Nat), fd < 3) ∧
    ((start NewOutputCapture
        ⟨Dest.original, Dest.original, [], 3, [true, false]⟩).2.2
      = some "pipe creation failed") ∧
    (start NewOutputCapture
        ⟨Dest.original, Dest.original, [], 3, [true, false]⟩).2.1.stdout
      = Dest.original ∧
    (start NewOutputCapture
        ⟨Dest.original, Dest.original, [], 3, [true, false]⟩).1.capturing
      = false ∧
    (start NewOutputCapture
        ⟨Dest.original, Dest.original, [], 3, [true, false]⟩).2.1.openFds
      = [] :=
  ⟨fun fd hmem => absurd hmem (List.not_mem_nil fd), by decide,
    (start_failure_no_leak NewOutputCapture
      ⟨Dest.original, Dest.original, [], 3, [true, false]⟩
      (fun fd hmem => absurd hmem (List.not_mem_nil fd))
      "pipe creation failed" (by decide)).1,
    (start_failure_no_leak NewOutputCapture
      ⟨Dest.original, Dest.original, [], 3, [true, false]⟩
      (fun fd hmem => absurd hmem (List.not_mem_nil fd))
      "pipe creation failed" (by decide)).2.2.1,
    (start_failure_no_leak NewOutputCapture
      ⟨Dest.original, Dest.original, [], 3, [true, false]⟩
      (fun fd hmem => absurd hmem (List.not_mem_nil fd))
      "pipe creation failed" (by decide)).2.2.2.2⟩

end Capture

namespace Adb

/-- `adb.DeviceChangeEvent` (`internal/adb`, device tracking). -/
structure DeviceChangeEvent where
  serial : List Char
  status : List Char
deriving DecidableEq, Repr

/-- The per-line parsing performed by `StartDeviceTracking`'s reading
goroutine (`internal/adb`, lines 40-61): trim the line, skip it when empty,
split on tabs, and when there are at least two fields trim the first two;
an event is emitted exactly when the trimmed serial is non-empty and the
trimmed status is one of `device`, `offline`, `disconnected`. -/
def parseTrackLine (raw : List Char) : Option DeviceChangeEvent :=
  let line := trimSpace raw
  if line = [] then none
  else
    match splitOnTab line with
    | p0 :: p1 :: _ =>
      let serial := trimSpace p0
      let status := trimSpace p1
      if serial ≠ [] ∧ (status = "device".toList ∨
          status = "offline".toList ∨ status = "disconnected".toList)
      then some ⟨serial, status⟩ else none
    | _ => none

/-- Modelled from the claim's words (refinement reference, not from the
code): a line that, after trimming, has the form
`identifier<TAB>status` with a non-empty identifier and a status in the
recognized set yields the event `{identifier, status}` of that
decomposition; any other line yields no event. (The decomposition is
unique because no recognized status contains a tab or is a suffix of
another.) -/
def claimFormParse (raw : List Char) : Option DeviceChangeEvent :=
  let line := trimSpace raw
  match ["device".toList, "offline".toList,
      "disconnected".toList].find?
      (fun st => ('\t' :: st).isSuffixOf line &&
        decide (st.length + 1 < line.length)) with
  | some st => some ⟨line.take (line.length - (st.length + 1)), st⟩
  | none => none

/-- C7 — counterexample. The line "a \tdevice" (a serial with a trailing
blank before the tab): under the claim's reading it has the form
`identifier<TAB>status` with identifier "a " and status "device", so the
claim predicts the event `{"a ", "device"}`; the code trims each field and
emits `{"a", "device"}` instead. -/
theorem trackLine_claim_counterexample :
    parseTrackLine "a \tdevice".toList
      = some ⟨"a".toList, "device".toList⟩ ∧
    claimFormParse "a \tdevice".toList
      = some ⟨"a ".toList, "device".toList⟩ ∧
    ("a".toList : List Char) ≠ "a ".toList := by
  refine ⟨by decide, by decide, by decide⟩

def notTab (c : Char) : Bool := c ≠ '\t'

theorem splitOnTab_no_tab (l : List Char) (h : ('\t' : Char) ∉ l) :
    splitOnTab l = [l] := by
  induction l with
  | nil => rfl
  | cons c r ih =>
    have hc : ¬ c = '\t' := fun hh => h (hh ▸ List.mem_cons_self c r)
    have hr : ('\t' : Char) ∉ r := fun hh => h (List.mem_cons_of_mem c hh)
    unfold splitOnTab
    rw [if_neg hc, ih hr]


theorem splitOnTab_cons (c : Char) (r : List Char) :
    splitOnTab (c :: r) =
      if c = '\t' then [] :: splitOnTab r
      else match splitOnTab r with
        | [] => [[c]]
        | f :: fs => (c :: f) :: fs := by
  rw [splitOnTab]

theorem splitOnTab_split (pre post : List Char) (h : ('\t' : Char) ∉ pre) :
    splitOnTab (pre ++ '\t' :: post) = pre :: splitOnTab post := by
  induction pre with
  | nil =>
    rw [List.nil_append, splitOnTab_cons, if_pos rfl]
  | cons c r ih =>
    have hc : ¬ c = '\t' := fun hh => h (hh ▸ List.mem_cons_self c r)
    have hr : ('\t' : Char) ∉ r := fun hh => h (List.mem_cons_of_mem c hh)
    rw [List.cons_append, splitOnTab_cons, if_neg hc, ih hr]

theorem splitOnTab_head (l : List Char) :
    ∃ fs, splitOnTab l = l.takeWhile notTab :: fs := by
  induction l with
  | nil => exact ⟨[], rfl⟩
  | cons c r ih =>
    by_cases hc : c = '\t'
    · refine ⟨splitOnTab r, ?_⟩
      subst hc
      rw [splitOnTab_cons, if_pos rfl]
      simp [notTab]
    · obtain ⟨fs, hfs⟩ := ih
      refine ⟨fs, ?_⟩
      rw [splitOnTab_cons, if_neg hc, hfs]
      simp [notTab, hc]

theorem exists_tab_split (l : List Char) (h : ('\t' : Char) ∈ l) :
    ∃ pre post, l = pre ++ '\t' :: post ∧ ('\t' : Char) ∉ pre := by
  induction l with
  | nil => exact absurd h (List.not_mem_nil _)
  | cons c r ih =>
    by_cases hc : c = '\t'
    · exact ⟨[], r, by rw [hc, List.nil_append], List.not_mem_nil _⟩
    · have hr : ('\t' : Char) ∈ r := by
        rcases List.mem_cons.mp h with h1 | h2
        · exact absurd h1.symm hc
        · exact h2
      obtain ⟨pre, post, hdec, hnotin⟩ := ih hr
      refine ⟨c :: pre, post, by rw [hdec, List.cons_append], ?_⟩
      intro hm
      rcases List.mem_cons.mp hm with h1 | h2
      · exact hc h1.symm
      · exact hnotin h2

/-- C7 (amended) — characterization of the device-watcher line parser: a
raw line yields an event exactly when, after trimming surrounding
whitespace, it decomposes as `pre ++ TAB ++ post` with no tab in `pre`,
the trimmed `pre` non-empty, and the trimmed first tab-free segment of
`post` in the set `{device, offline, disconnected}`; the emitted event
carries the TRIMMED identifier and status fields (each field is trimmed
again after splitting), not the raw decomposition fields as the original
claim stated. -/
theorem parseTrackLine_characterization (raw : List Char)
    (ev : DeviceChangeEvent) :
    parseTrackLine raw = some ev ↔
      ∃ pre post,
        trimSpace raw = pre ++ '\t' :: post ∧
        ('\t' : Char) ∉ pre ∧
        trimSpace pre ≠ [] ∧
        (trimSpace (post.takeWhile notTab) = "device".toList ∨
         trimSpace (post.takeWhile notTab) = "offline".toList ∨
         trimSpace (post.takeWhile notTab) = "disconnected".toList) ∧
        ev = ⟨trimSpace pre, trimSpace (post.takeWhile notTab)⟩ := by
  constructor
  · intro hp
    unfold parseTrackLine at hp
    dsimp only at hp
    by_cases hnil : trimSpace raw = []
    · rw [if_pos hnil] at hp
      exact absurd hp (by simp)
    · rw [if_neg hnil] at hp
      by_cases htab : ('\t' : Char) ∈ trimSpace raw
      · obtain ⟨pre, post, hdec, hnotin⟩ := exists_tab_split _ htab
        rw [hdec, splitOnTab_split pre post hnotin] at hp
        obtain ⟨fs, hfs⟩ := splitOnTab_head post
        rw [hfs] at hp
        dsimp only at hp
        by_cases hcond : trimSpace pre ≠ [] ∧
            (trimSpace (post.takeWhile notTab) = "device".toList ∨
             trimSpace (post.takeWhile notTab) = "offline".toList ∨
             trimSpace (post.takeWhile notTab) = "disconnected".toList)
        · rw [if_pos hcond] at hp
          injection hp with hev
          exact ⟨pre, post, hdec, hnotin, hcond.1, hcond.2, hev.symm⟩
        · rw [if_neg hcond] at hp
          exact absurd hp (by simp)
      · rw [splitOnTab_no_tab _ htab] at hp
        dsimp only at hp
        exact absurd hp (by simp)
  · rintro ⟨pre, post, hdec, hnotin, hser, hst, hev⟩
    unfold parseTrackLine
    dsimp only
    rw [hdec, splitOnTab_split pre post hnotin]
    rw [if_neg (by simp : ¬(pre ++ '\t' :: post = []))]
    obtain ⟨fs, hfs⟩ := splitOnTab_head post
    rw [hfs]
    dsimp only
    rw [if_pos ⟨hser, hst⟩, hev]

/-- C7 witness: the spec's own example line "emulator-5554\tdevice"
yields the event with identifier "emulator-5554" and status "device". -/
theorem parseTrackLine_characterization_witness :
    parseTrackLine "emulator-5554\tdevice".toList
      = some ⟨"emulator-5554".toList, "device".toList⟩ :=
  (parseTrackLine_characterization "emulator-5554\tdevice".toList
      ⟨"emulator-5554".toList, "device".toList⟩).mpr
    ⟨"emulator-5554".toList, "device".toList, by decide, by decide,
      by decide, Or.inl (by decide), by decide⟩

end Adb
